import Mathlib

/-!
Verification of real-time-ranking: event scoring and personalized ranking.

A shallow embedding of the event processor (`handlers/handlers.go`), the ranking
service (`services/services.go`) and the two stores (`store/postgres_store.go`,
`store/redis_store.go`).

Modelling conventions.
* A finite `float64` is the rational `ℚ` that it denotes. The stores hold the exact
  value of each score expression; the score updates of the event processor are also
  evaluated with the IEEE 754 rounding of `float64` (`scoreF64`, `accumulateF64`), and
  the statements on the sum of the weights are about both.
* Go `int` counters are integers whose additions wrap around at 64 bits
  (`wrapInt64`); the conversion `int(x)` of a `float64` is `goInt`.
* A `time.Time` is an integer number of nanoseconds; a `time.Duration` is a 64-bit
  number of nanoseconds and `time.Since` saturates.
* The Postgres tables are lists of rows, the Redis sorted set is an association
  list, and every store call can fail according to an explicit fault record.
* The Redis commands (`ZADD`, `ZSCORE`, `ZREVRANGE`, `SET` with an expiration, `GET`,
  `DEL`) follow the Redis documentation; a failed call leaves the store unchanged.
-/

namespace RealTimeRanking

/-! ## models/models.go -/

/-- A `uuid.UUID` (16 bytes), read as a natural number. -/
abbrev UUID := Nat

/-- A `time.Time`, in nanoseconds. -/
abbrev Time := Int

def ViewAction : String := "view"
def LikeAction : String := "like"
def CommentAction : String := "comment"
def ShareAction : String := "share"
def WatchTimeAction : String := "watch_time"

/-- The struct `models.Video`. -/
structure Video where
  ID : UUID
  Title : String
  Data : String
  Score : ℚ
  Views : Int
  Likes : Int
  Comments : Int
  Shares : Int
  WatchTime : Int
  CreatedAt : Time
  UpdatedAt : Time
  deriving DecidableEq

/-- The dynamic content of the field `VideoEvent.Value` of type `interface{}`:
`null` is the nil interface (field absent), `float64` is what a JSON number decodes
to, the other constructors are dynamic types that are not `float64`. -/
inductive EventValue where
  | null
  | float64 (x : ℚ)
  | string (s : String)
  | bool (b : Bool)
  deriving DecidableEq

/-- The struct `models.VideoEvent`. -/
structure VideoEvent where
  VideoID : UUID
  Action : String
  UserID : String
  Value : EventValue
  deriving DecidableEq

/-- The struct `models.UserVideoInteraction`. -/
structure UserVideoInteraction where
  UserID : String
  VideoID : UUID
  LastViewed : Time
  Views : Int
  Likes : Int
  Comments : Int
  Shares : Int
  WatchTime : Int
  deriving DecidableEq

/-- The struct `models.UserPreference`. -/
structure UserPreference where
  UserID : String
  Categories : List String
  UpdatedAt : Time
  deriving DecidableEq

/-! ## Environment and stores -/

/-- Errors returned by the modelled operations. -/
inductive Err where
  | videoNotFound
  | getVideo
  | invalidWatchTime
  | unknownAction
  | updateVideo
  | zadd
  | updateInteraction
  | sliceBounds
  | zrevrange
  | getInteractions
  | getPreferences
  | updatePreferences
  | cacheGet
  | cacheSet
  | cacheDel
  deriving DecidableEq

/-- The outside world during one call: which store calls fail, and the clock. -/
structure Env where
  getVideoErr : Bool
  updateVideoErr : Bool
  zaddErr : Bool
  updateInteractionErr : Bool
  now : Time
  zrevrangeErr : Bool := false
  zscoreErr : Bool := false
  getInteractionsErr : Bool := false
  getPreferencesErr : Bool := false
  updatePreferencesErr : Bool := false
  cacheGetErr : Bool := false
  cacheSetErr : Bool := false
  cacheDelErr : Bool := false
  deriving DecidableEq

/-- An entry of the Redis preference cache: the key `user:preferences:<userID>`, the
cached preference and the instant at which the key expires. -/
structure CacheEntry where
  userID : String
  preferences : UserPreference
  expiresAt : Time
  deriving DecidableEq

/-- The stores: the Postgres tables `videos`, `user_video_interactions` and
`user_preferences`, the Redis sorted set `video_ranking` (member, score) and the Redis
keys of the preference cache. -/
structure State where
  videos : List Video
  user_video_interactions : List UserVideoInteraction
  video_ranking : List (UUID × ℚ)
  user_preferences : List UserPreference := []
  preference_cache : List CacheEntry := []
  deriving DecidableEq

/-- The least value of a Go `int` (64 bits). -/
def minInt64 : Int := -9223372036854775808

/-- The greatest value of a Go `int` (64 bits). -/
def maxInt64 : Int := 9223372036854775807

/-- The result of a Go `int` addition whose exact value is `n`: 64-bit two's complement
wrap-around. -/
def wrapInt64 (n : Int) : Int :=
  (n + 9223372036854775808) % 18446744073709551616 - 9223372036854775808

/-- Truncation of a rational toward zero. -/
def truncInt (x : ℚ) : Int := if 0 ≤ x then ⌊x⌋ else ⌈x⌉

/-- The Go conversion `int(x)` of a `float64`: truncation toward zero when the result
fits in 64 bits. Outside this range the Go specification leaves the result to the
implementation; the value here is the one of the amd64 conversion instruction, the
least `int`. -/
def goInt (x : ℚ) : Int :=
  if minInt64 ≤ truncInt x ∧ truncInt x ≤ maxInt64 then truncInt x else minInt64

/-- `SELECT ... FROM videos WHERE id = $1`: the row of the given id, if any. -/
def selectVideo (rows : List Video) (id : UUID) : Option Video :=
  rows.find? (fun r => decide (r.ID = id))

/-- `PostgresStore.GetVideo`. -/
def PostgresStore.GetVideo (env : Env) (s : State) (videoID : UUID) : Except Err Video :=
  if env.getVideoErr then .error .getVideo
  else match selectVideo s.videos videoID with
    | none => .error .videoNotFound
    | some v => .ok v

/-- `PostgresStore.UpdateVideo`: `UPDATE videos SET title, data, score, views, likes,
comments, shares, watch_time, updated_at WHERE id = $1`. -/
def PostgresStore.UpdateVideo (env : Env) (s : State) (video : Video) : Except Err Unit × State :=
  if env.updateVideoErr then (.error .updateVideo, s)
  else (.ok (), { s with videos := s.videos.map (fun r =>
      if r.ID = video.ID then
        { r with Title := video.Title, Data := video.Data, Score := video.Score,
                 Views := video.Views, Likes := video.Likes, Comments := video.Comments,
                 Shares := video.Shares, WatchTime := video.WatchTime,
                 UpdatedAt := env.now }
      else r) })

/-- The command `ZADD key score member` on an association list: the member's score is
replaced, or the member is added. -/
def zadd (z : List (UUID × ℚ)) (member : UUID) (score : ℚ) : List (UUID × ℚ) :=
  if z.any (fun p => decide (p.1 = member)) then
    z.map (fun p => if p.1 = member then (member, score) else p)
  else z ++ [(member, score)]

/-- `RedisStore.UpdateVideoScore`. -/
def RedisStore.UpdateVideoScore (env : Env) (s : State) (videoID : UUID) (score : ℚ) :
    Except Err Unit × State :=
  if env.zaddErr then (.error .zadd, s)
  else (.ok (), { s with video_ranking := zadd s.video_ranking videoID score })

/-- `PostgresStore.UpdateUserVideoInteraction`: `INSERT ... ON CONFLICT (user_id, video_id)
DO UPDATE SET last_viewed = $3, views = views + $4, likes = $5, comments = $6, shares = $7,
watch_time = watch_time + $8`. -/
def PostgresStore.UpdateUserVideoInteraction (env : Env) (s : State)
    (interaction : UserVideoInteraction) : Except Err Unit × State :=
  if env.updateInteractionErr then (.error .updateInteraction, s)
  else if s.user_video_interactions.any
      (fun r => decide (r.UserID = interaction.UserID ∧ r.VideoID = interaction.VideoID)) then
    (.ok (), { s with user_video_interactions := s.user_video_interactions.map (fun r =>
      if r.UserID = interaction.UserID ∧ r.VideoID = interaction.VideoID then
        { r with LastViewed := interaction.LastViewed,
                 Views := r.Views + interaction.Views,
                 Likes := interaction.Likes,
                 Comments := interaction.Comments,
                 Shares := interaction.Shares,
                 WatchTime := r.WatchTime + interaction.WatchTime }
      else r) })
  else
    (.ok (), { s with user_video_interactions := s.user_video_interactions ++ [interaction] })

/-! ## services/services.go: writes -/

/-- `RankingService.GetVideo`. -/
def RankingService.GetVideo (env : Env) (s : State) (videoID : UUID) : Except Err Video :=
  PostgresStore.GetVideo env s videoID

/-- `RankingService.updateVideoInRedis`. -/
def RankingService.updateVideoInRedis (env : Env) (s : State) (video : Video) :
    Except Err Unit × State :=
  RedisStore.UpdateVideoScore env s video.ID video.Score

/-- `RankingService.UpdateVideo`: the Postgres write is fatal, the Redis write is
logged only. -/
def RankingService.UpdateVideo (env : Env) (s : State) (video : Video) :
    Except Err Unit × State :=
  match PostgresStore.UpdateVideo env s video with
  | (.error e, s1) => (.error e, s1)
  | (.ok _, s1) => (.ok (), (RankingService.updateVideoInRedis env s1 video).2)

/-- `RankingService.UpdateUserVideoInteraction`. -/
def RankingService.UpdateUserVideoInteraction (env : Env) (s : State)
    (interaction : UserVideoInteraction) : Except Err Unit × State :=
  PostgresStore.UpdateUserVideoInteraction env s interaction

/-! ## handlers/handlers.go -/

/-- The first `switch event.Action` of `ProcessVideoEvent`: the counter and score
update of the fetched video. The counters are Go `int` values (64-bit wrap-around).
The score is the exact value of the expression; `scoreF64` below is its evaluation
in float64 arithmetic. -/
def applyAction (event : VideoEvent) (video : Video) : Except Err Video :=
  if event.Action = ViewAction then
    .ok { video with Views := wrapInt64 (video.Views + 1), Score := video.Score + 1 }
  else if event.Action = LikeAction then
    .ok { video with Likes := wrapInt64 (video.Likes + 1), Score := video.Score + 5 }
  else if event.Action = CommentAction then
    .ok { video with Comments := wrapInt64 (video.Comments + 1), Score := video.Score + 3 }
  else if event.Action = ShareAction then
    .ok { video with Shares := wrapInt64 (video.Shares + 1), Score := video.Score + 4 }
  else if event.Action = WatchTimeAction then
    match event.Value with
    | .float64 watchTime =>
      .ok { video with WatchTime := wrapInt64 (video.WatchTime + goInt watchTime),
                       Score := video.Score + watchTime * 0.05 }
    | _ => .error .invalidWatchTime
  else .error .unknownAction

/-- The second `switch event.Action` of `ProcessVideoEvent`: the interaction record
carrying the increment of this event. -/
def eventInteraction (env : Env) (event : VideoEvent) : UserVideoInteraction :=
  let interaction : UserVideoInteraction :=
    { UserID := event.UserID, VideoID := event.VideoID, LastViewed := env.now,
      Views := 0, Likes := 0, Comments := 0, Shares := 0, WatchTime := 0 }
  if event.Action = ViewAction then { interaction with Views := 1 }
  else if event.Action = LikeAction then { interaction with Likes := 1 }
  else if event.Action = CommentAction then { interaction with Comments := 1 }
  else if event.Action = ShareAction then { interaction with Shares := 1 }
  else if event.Action = WatchTimeAction then
    match event.Value with
    | .float64 x => { interaction with WatchTime := goInt x }
    | _ => interaction
  else interaction

/-- `VideoEventHandler.ProcessVideoEvent`: the returned error (or success) and the
stores after the call. -/
def ProcessVideoEvent (env : Env) (s : State) (event : VideoEvent) : Except Err Unit × State :=
  match RankingService.GetVideo env s event.VideoID with
  | .error e => (.error e, s)
  | .ok video =>
    match applyAction event video with
    | .error e => (.error e, s)
    | .ok video1 =>
      match RankingService.UpdateVideo env s video1 with
      | (.error e, s1) => (.error e, s1)
      | (.ok _, s1) =>
        (.ok (), (RankingService.UpdateUserVideoInteraction env s1 (eventInteraction env event)).2)

/-- The loop body of `consumer.ConsumeVideoEvents` run over a finite list of decoded
events, each with the environment of its call: an error is logged and the loop goes
on. Returns the result of every call and the final stores. -/
def ConsumeVideoEvents (s : State) : List (Env × VideoEvent) → List (Except Err Unit) × State
  | [] => ([], s)
  | (env, event) :: rest =>
    let r := ProcessVideoEvent env s event
    let rs := ConsumeVideoEvents r.2 rest
    (r.1 :: rs.1, rs.2)

/-! ## float64 arithmetic of the score -/

/-- Rounding of a rational to the nearest integer, a tie going to the even one. -/
def roundHalfEven (x : ℚ) : Int :=
  if x - ⌊x⌋ < 1 / 2 then ⌊x⌋
  else if 1 / 2 < x - ⌊x⌋ then ⌊x⌋ + 1
  else if ⌊x⌋ % 2 = 0 then ⌊x⌋ else ⌊x⌋ + 1

/-- The spacing of the float64 values at the magnitude of `x`: 2 ^ (e - 52) where
2 ^ e ≤ |x| < 2 ^ (e + 1), with e at least -1022 (the subnormal range). -/
def f64Ulp (x : ℚ) : ℚ := (2 : ℚ) ^ (max (Int.log 2 |x|) (-1022) - 52)

/-- The float64 nearest to a rational (IEEE 754 round to nearest, ties to even);
`none` when the rounded value is not finite (overflow). -/
def roundF64 (x : ℚ) : Option ℚ :=
  if |(roundHalfEven (x / f64Ulp x) : ℚ) * f64Ulp x| < 2 ^ 1024 then
    some ((roundHalfEven (x / f64Ulp x) : ℚ) * f64Ulp x)
  else none

/-- The float64 sum `a + b`; `none` stands for a value that is not finite. -/
def f64Add (a b : Option ℚ) : Option ℚ :=
  match a, b with
  | some x, some y => roundF64 (x + y)
  | _, _ => none

/-- The float64 product `a * b`; `none` stands for a value that is not finite. -/
def f64Mul (a b : Option ℚ) : Option ℚ :=
  match a, b with
  | some x, some y => roundF64 (x * y)
  | _, _ => none

/-- The constant `0.05` of `ProcessVideoEvent` converted to float64. -/
def f64Const005 : Option ℚ := roundF64 0.05

/-- The assignments to `video.Score` in the first `switch event.Action` of
`ProcessVideoEvent`, evaluated in float64 arithmetic on a float64 score (the product
and the sum of the watch_time case are rounded one after the other, as on amd64). An
event that the switch rejects leaves the score as it is. -/
def scoreF64 (event : VideoEvent) (score : Option ℚ) : Option ℚ :=
  if event.Action = ViewAction then f64Add score (some 1)
  else if event.Action = LikeAction then f64Add score (some 5)
  else if event.Action = CommentAction then f64Add score (some 3)
  else if event.Action = ShareAction then f64Add score (some 4)
  else if event.Action = WatchTimeAction then
    match event.Value with
    | .float64 watchTime => f64Add score (f64Mul (some watchTime) f64Const005)
    | _ => score
  else score

/-- The float64 score of an item after a run of events on it. -/
def accumulateF64 (score : Option ℚ) : List VideoEvent → Option ℚ
  | [] => score
  | event :: rest => accumulateF64 (scoreF64 event score) rest

/-! ## services/services.go: personalization -/

/-- The Go expression `time.Since(t)` evaluated at clock reading `now`: a
`time.Duration` in nanoseconds, which saturates at the least and the greatest
64-bit value. -/
def timeSince (now t : Time) : Int := max minInt64 (min maxInt64 (now - t))

/-- The Go expression `time.Since(t).Hours()` evaluated at clock reading `now`. -/
def hoursSince (now t : Time) : ℚ := ((timeSince now t : Int) : ℚ) / 3600000000000

/-- The map `interactionMap` built by the first loop of `personalizeVideoRanking`,
read at one key: a later record of the list overwrites an earlier one. -/
def interactionMap (userInteractions : List UserVideoInteraction) (id : UUID) :
    Option UserVideoInteraction :=
  userInteractions.foldl (fun m interaction =>
    if interaction.VideoID = id then some interaction else m) none

/-- `RankingService.getVideoCategoryMap`, read at one key: every listed video has the
placeholder category list `["default"]`. -/
def RankingService.getVideoCategoryMap (videos : List Video) (id : UUID) :
    Option (List String) :=
  if videos.any (fun v => decide (v.ID = id)) then some ["default"] else none

/-- The inner loop `for _, videoCategory := range videoCategories`: the first equal
category adds 3 and breaks out of this loop. -/
def categoryInnerLoop (score : ℚ) (userCategory : String) : List String → ℚ
  | [] => score
  | videoCategory :: rest =>
    if userCategory = videoCategory then score + 3
    else categoryInnerLoop score userCategory rest

/-- The outer loop `for _, userCategory := range userPreferences.Categories`. -/
def categoryLoop (score : ℚ) (videoCategories : List String) : List String → ℚ
  | [] => score
  | userCategory :: rest =>
    categoryLoop (categoryInnerLoop score userCategory videoCategories) videoCategories rest

/-- The body of the loop `for i := range videos` of `personalizeVideoRanking` for one
video, in exact arithmetic. The factor that the source names `recencyBoost` is at most
1 for a record viewed in the past. A record viewed exactly 24 hours after `now` makes
the denominator zero: the factor is then 0 here and infinite in float64. -/
def personalizeVideo (now : Time) (userInteractions : List UserVideoInteraction)
    (videoCategoryMap : UUID → Option (List String)) (userPreferences : UserPreference)
    (video : Video) : Video :=
  let video1 : Video :=
    match interactionMap userInteractions video.ID with
    | some interaction =>
      let s1 := video.Score + (interaction.Views : ℚ) * 0.1
      let s2 := s1 + (interaction.Likes : ℚ) * 0.5
      let s3 := s2 + (interaction.Comments : ℚ) * 0.8
      let s4 := s3 + (interaction.Shares : ℚ) * 1.2
      let s5 := s4 + (interaction.WatchTime : ℚ) * 0.05
      let timeDiff := hoursSince now interaction.LastViewed
      let recencyBoost := 1.0 / (1.0 + timeDiff / 24.0)
      { video with Score := s5 * recencyBoost }
    | none => video
  if userPreferences.Categories.length > 0 then
    match videoCategoryMap video1.ID with
    | some videoCategories =>
      { video1 with Score := categoryLoop video1.Score videoCategories userPreferences.Categories }
    | none => video1
  else video1

/-- The inner loop of `insertionSortLessFunc` of the Go package `sort`, on the
reversed sorted prefix: the new element moves left while it is less than its left
neighbour. -/
def insertLeft {α : Type} (less : α → α → Bool) (x : α) : List α → List α
  | [] => [x]
  | y :: ys => if less x y then y :: insertLeft less x ys else x :: y :: ys

/-- `sort.Slice(videos, less)` as the insertion sort `insertionSortLessFunc`, which is
what the Go package `sort` (Go 1.19 and later) runs on a slice of at most 12 elements;
a longer slice is sorted by pattern-defeating quicksort, which also returns a
permutation ordered by `less` but may place elements that compare equal differently. -/
def sortSlice {α : Type} (less : α → α → Bool) (data : List α) : List α :=
  (data.foldl (fun sortedRev x => insertLeft less x sortedRev) []).reverse

/-- `RankingService.personalizeVideoRanking`, with the clock reading `now` used by
`time.Since`. -/
def RankingService.personalizeVideoRanking (now : Time) (videos : List Video)
    (userInteractions : List UserVideoInteraction) (userPreferences : UserPreference) :
    List Video :=
  let videoCategoryMap := RankingService.getVideoCategoryMap videos
  sortSlice (fun a b => decide (a.Score > b.Score))
    (videos.map (personalizeVideo now userInteractions videoCategoryMap userPreferences))

/-- The Go slice expression `s[low:high]` on a slice whose capacity equals its length
(as made by `make([]models.Video, n)` in `GetTopVideos`): it panics unless
`0 ≤ low ≤ high ≤ cap(s)`. -/
def sliceExpr {α : Type} (s : List α) (low high : Int) : Except Err (List α) :=
  if 0 ≤ low ∧ low ≤ high ∧ high ≤ (s.length : Int) then
    .ok ((s.take high.toNat).drop low.toNat)
  else .error .sliceBounds

/-- Step 7 of `RankingService.GetTopVideosPerUser`: the pagination of the personalized
list. -/
def GetTopVideosPerUser.paginate (personalizedVideos : List Video) (start stop : Int) :
    Except Err (List Video) :=
  if start > (personalizedVideos.length : Int) then .ok []
  else
    let stop1 := if stop > (personalizedVideos.length : Int)
      then (personalizedVideos.length : Int) - 1 else stop
    sliceExpr personalizedVideos start (stop1 + 1)

/-! ## store/redis_store.go and store/postgres_store.go: reads and preferences -/

/-- The command `ZSCORE key member`. -/
def zscore (z : List (UUID × ℚ)) (member : UUID) : Option ℚ :=
  (z.find? (fun p => decide (p.1 = member))).map (fun p => p.2)

/-- The order of `ZREVRANGE`: from the highest to the lowest score, members of equal
score in descending lexicographical order (for the fixed-width text of a UUID this
is the descending order of the id). -/
def zrevLess (a b : UUID × ℚ) : Bool :=
  decide (a.2 > b.2 ∨ (a.2 = b.2 ∧ a.1 > b.1))

/-- The command `ZREVRANGE key start stop` of Redis: a negative index counts from the
end, an empty reply when start is after stop or beyond the last rank, and stop is
clamped to the last rank. -/
def zrevrange (z : List (UUID × ℚ)) (start stop : Int) : List UUID :=
  let llen : Int := (z.length : Int)
  let start1 := if start < 0 then llen + start else start
  let stop1 := if stop < 0 then llen + stop else stop
  let start2 := if start1 < 0 then 0 else start1
  if start2 > stop1 ∨ start2 ≥ llen then []
  else
    let stop2 := if stop1 ≥ llen then llen - 1 else stop1
    (((sortSlice zrevLess z).drop start2.toNat).take (stop2 - start2 + 1).toNat).map
      (fun p => p.1)

/-- The zero value `models.Video{}`, which is what `make([]models.Video, n)` fills a
slice with. -/
def zeroVideo : Video :=
  { ID := 0, Title := "", Data := "", Score := 0, Views := 0, Likes := 0, Comments := 0,
    Shares := 0, WatchTime := 0, CreatedAt := 0, UpdatedAt := 0 }

/-- `RedisStore.GetTopVideos`: the slot of a member whose `ZSCORE` fails is left at
the zero value. -/
def RedisStore.GetTopVideos (env : Env) (s : State) (start stop : Int) :
    Except Err (List Video) :=
  if env.zrevrangeErr then .error .zrevrange
  else .ok ((zrevrange s.video_ranking start stop).map (fun videoID =>
    if env.zscoreErr then zeroVideo
    else match zscore s.video_ranking videoID with
      | none => zeroVideo
      | some score => { zeroVideo with ID := videoID, Score := score }))

/-- `RankingService.GetTopVideos`: the result slice has the length of the Redis range,
and the slot of an id whose `GetVideo` fails is left at the zero value by `continue`. -/
def RankingService.GetTopVideos (env : Env) (s : State) (start stop : Int) :
    Except Err (List Video) :=
  match RedisStore.GetTopVideos env s start stop with
  | .error e => .error e
  | .ok redisVideos => .ok (redisVideos.map (fun rv =>
      match PostgresStore.GetVideo env s rv.ID with
      | .error _ => zeroVideo
      | .ok video => video))

/-- `SELECT ... FROM user_preferences WHERE user_id = $1`. -/
def selectUserPreferences (rows : List UserPreference) (userID : String) :
    Option UserPreference :=
  rows.find? (fun r => decide (r.UserID = userID))

/-- `PostgresStore.GetUserPreferences`: no row gives the default preference of the
user, without an error. -/
def PostgresStore.GetUserPreferences (env : Env) (s : State) (userID : String) :
    Except Err UserPreference :=
  if env.getPreferencesErr then .error .getPreferences
  else match selectUserPreferences s.user_preferences userID with
    | none => .ok { UserID := userID, Categories := [], UpdatedAt := 0 }
    | some row => .ok row

/-- `PostgresStore.UpdateUserPreferences`: `INSERT ... ON CONFLICT (user_id) DO UPDATE
SET categories = $2, updated_at = $3`. -/
def PostgresStore.UpdateUserPreferences (env : Env) (s : State)
    (preferences : UserPreference) : Except Err Unit × State :=
  if env.updatePreferencesErr then (.error .updatePreferences, s)
  else if s.user_preferences.any (fun r => decide (r.UserID = preferences.UserID)) then
    (.ok (), { s with user_preferences := s.user_preferences.map (fun r =>
      if r.UserID = preferences.UserID then
        { r with Categories := preferences.Categories, UpdatedAt := preferences.UpdatedAt }
      else r) })
  else (.ok (), { s with user_preferences := s.user_preferences ++ [preferences] })

/-- `PostgresStore.GetUserVideoInteractions`. -/
def PostgresStore.GetUserVideoInteractions (env : Env) (s : State) (userID : String) :
    Except Err (List UserVideoInteraction) :=
  if env.getInteractionsErr then .error .getInteractions
  else .ok (s.user_video_interactions.filter (fun r => decide (r.UserID = userID)))

/-- The live cache entry of a user at an instant: a key that has expired is gone. -/
def cacheLookup (cache : List CacheEntry) (userID : String) (now : Time) :
    Option UserPreference :=
  (cache.find? (fun c => decide (c.userID = userID ∧ now < c.expiresAt))).map
    (fun c => c.preferences)

/-- `RedisStore.GetCachedUserPreferences`: `(nil, nil)` on a miss. -/
def RedisStore.GetCachedUserPreferences (env : Env) (s : State) (userID : String) :
    Except Err (Option UserPreference) :=
  if env.cacheGetErr then .error .cacheGet
  else .ok (cacheLookup s.preference_cache userID env.now)

/-- `RedisStore.CacheUserPreferences`: `SET key value` with the given expiration. -/
def RedisStore.CacheUserPreferences (env : Env) (s : State) (userID : String)
    (preferences : UserPreference) (expiration : Int) : Except Err Unit × State :=
  if env.cacheSetErr then (.error .cacheSet, s)
  else (.ok (), { s with preference_cache :=
    { userID := userID, preferences := preferences, expiresAt := env.now + expiration }
      :: s.preference_cache.filter (fun c => decide (c.userID ≠ userID)) })

/-- `RedisStore.DeleteCachedUserPreferences`: `DEL key`. -/
def RedisStore.DeleteCachedUserPreferences (env : Env) (s : State) (userID : String) :
    Except Err Unit × State :=
  if env.cacheDelErr then (.error .cacheDel, s)
  else (.ok (), { s with preference_cache :=
    s.preference_cache.filter (fun c => decide (c.userID ≠ userID)) })

/-- The Go constant `time.Hour`, in nanoseconds. -/
def timeHour : Int := 3600000000000

/-! ## services/services.go: preferences and the personalized query -/

/-- A call made to a store during the preference resolution. -/
inductive StoreCall where
  | GetCachedUserPreferences (userID : String)
  | GetUserPreferences (userID : String)
  | CacheUserPreferences (userID : String) (preferences : UserPreference) (expiration : Int)
  deriving DecidableEq

/-- Steps 1 to 3 of `RankingService.GetTopVideosPerUser`: the resolved preference, the
stores afterwards, and the store calls made, in order. -/
def GetTopVideosPerUser.resolvePreferences (env : Env) (s : State) (userID : String) :
    UserPreference × State × List StoreCall :=
  let cachedPreferences : Option UserPreference :=
    match RedisStore.GetCachedUserPreferences env s userID with
    | .error _ => none
    | .ok c => c
  match cachedPreferences with
  | some cached => (cached, s, [.GetCachedUserPreferences userID])
  | none =>
    let prefs : UserPreference :=
      match PostgresStore.GetUserPreferences env s userID with
      | .error _ => { UserID := userID, Categories := [], UpdatedAt := 0 }
      | .ok prefs => prefs
    (prefs, (RedisStore.CacheUserPreferences env s userID prefs timeHour).2,
      [.GetCachedUserPreferences userID, .GetUserPreferences userID,
        .CacheUserPreferences userID prefs timeHour])

/-- `RankingService.GetTopVideosPerUser`: the returned page (or error) and the stores
afterwards. -/
def RankingService.GetTopVideosPerUser (env : Env) (s : State) (userID : String)
    (start stop : Int) : Except Err (List Video) × State :=
  let r := GetTopVideosPerUser.resolvePreferences env s userID
  match PostgresStore.GetUserVideoInteractions env r.2.1 userID with
  | .error e => (.error e, r.2.1)
  | .ok userInteractions =>
    match RankingService.GetTopVideos env r.2.1 0 100 with
    | .error e => (.error e, r.2.1)
    | .ok globalTopVideos =>
      (GetTopVideosPerUser.paginate
        (RankingService.personalizeVideoRanking env.now globalTopVideos userInteractions r.1)
        start stop, r.2.1)

/-- `RankingService.UpdateUserPreferences`: the Postgres write is fatal, the cache
delete is logged only. -/
def RankingService.UpdateUserPreferences (env : Env) (s : State)
    (preferences : UserPreference) : Except Err Unit × State :=
  match PostgresStore.UpdateUserPreferences env s preferences with
  | (.error e, s1) => (.error e, s1)
  | (.ok _, s1) =>
    (.ok (), (RedisStore.DeleteCachedUserPreferences env s1 preferences.UserID).2)

/-! ## handlers/videos/videos.go -/

/-- The struct `models.UpdateVideoRequest`. -/
structure UpdateVideoRequest where
  Title : String
  Data : String
  deriving DecidableEq

/-- The binding tags of `UpdateVideoRequest` checked by `ShouldBindJSON`: the title is
`required,min=1,max=255` and the data is `required`. -/
def UpdateVideoRequest.valid (r : UpdateVideoRequest) : Bool :=
  decide (1 ≤ r.Title.length ∧ r.Title.length ≤ 255 ∧ r.Data ≠ "")

/-- `VideoHandler.UpdateVideo`: the HTTP status of the response and the stores
afterwards. The argument `id` is the result of `uuid.Parse` on the path parameter. The
video handed to the service is `models.Video{ID: id, Title: ..., Data: ...}`, whose
other fields have the zero value. -/
def VideoHandler.UpdateVideo (env : Env) (s : State) (id : Option UUID)
    (updateRequest : UpdateVideoRequest) : Nat × State :=
  match id with
  | none => (400, s)
  | some id =>
    if updateRequest.valid then
      let updatedVideo : Video :=
        { ID := id, Title := updateRequest.Title, Data := updateRequest.Data, Score := 0,
          Views := 0, Likes := 0, Comments := 0, Shares := 0, WatchTime := 0,
          CreatedAt := 0, UpdatedAt := 0 }
      match RankingService.UpdateVideo env s updatedVideo with
      | (.error _, s1) => (500, s1)
      | (.ok _, s1) => (200, s1)
    else (400, s)

/-! ## Definitions that follow the specification -/

/-- The weight table of the specification: view 1, like 5, comment 3, share 4,
watch_time value × 0.05. -/
def specWeight (event : VideoEvent) : ℚ :=
  if event.Action = "view" then 1
  else if event.Action = "like" then 5
  else if event.Action = "comment" then 3
  else if event.Action = "share" then 4
  else if event.Action = "watch_time" then
    match event.Value with
    | .float64 x => x * (5 / 100)
    | _ => 0
  else 0

/-- The number of events of a given action in a sequence. -/
def countAction (action : String) (events : List (Env × VideoEvent)) : Int :=
  ((events.filter (fun p => decide (p.2.Action = action))).length : Int)

/-- The value of a watch_time event as the specification adds it to the counter
(0 for any other event). -/
def specWatchValue (event : VideoEvent) : ℚ :=
  if event.Action = "watch_time" then
    match event.Value with
    | .float64 x => x
    | _ => 0
  else 0

/-- Truncation toward zero: the whole part of the magnitude, with the sign of the
number. -/
def specTruncate (x : ℚ) : Int := if x < 0 then -⌊|x|⌋ else ⌊|x|⌋

/-- The value of a watch_time event truncated toward zero to an integer (0 for any
other event). -/
def specTruncatedWatchValue (event : VideoEvent) : Int :=
  if event.Action = "watch_time" then
    match event.Value with
    | .float64 x => specTruncate x
    | _ => 0
  else 0

/-- The value of a watch_time event as the code adds it to the counter: converted by
`int(...)` (0 for any other event). -/
def watchIncrement (event : VideoEvent) : Int :=
  if event.Action = "watch_time" then
    match event.Value with
    | .float64 x => goInt x
    | _ => 0
  else 0

/-- The adjusted score of the specification for one candidate: engagement boost and
recency decay when an interaction record exists, then the category bonus. The decay
1 / (1 + hours / 24) has no value when its denominator is zero. -/
def specAdjustedScore (now : Time) (score : ℚ) (record : Option UserVideoInteraction)
    (bonus : ℚ) : Option ℚ :=
  match record with
  | some r =>
    if 1 + hoursSince now r.LastViewed / 24 = 0 then none
    else some ((score + (r.Views : ℚ) * (1 / 10) + (r.Likes : ℚ) * (5 / 10)
      + (r.Comments : ℚ) * (8 / 10) + (r.Shares : ℚ) * (12 / 10)
      + (r.WatchTime : ℚ) * (5 / 100))
      * (1 / (1 + hoursSince now r.LastViewed / 24)) + bonus)
  | none => some (score + bonus)

/-- The increment of one counter by one event: 1 when the event has the action of
the counter. -/
def actionIncrement (action : String) (event : VideoEvent) : Int :=
  if event.Action = action then 1 else 0

/-- The number of entries of the preference list that are among the categories of
the video, an entry listed twice counting twice. -/
def matchingEntries (userCategories videoCategories : List String) : Nat :=
  (userCategories.filter (fun c => decide (c ∈ videoCategories))).length

/-- A valid event of the specification: one of the five actions, with a numeric
value when the action is watch_time. -/
def validEvent (event : VideoEvent) : Bool :=
  event.Action == "view" || event.Action == "like" || event.Action == "comment"
    || event.Action == "share"
    || (event.Action == "watch_time"
        && (match event.Value with
            | .float64 _ => true
            | _ => false))

/-- The interaction record of an item in the list of a user: the record whose video
id is the id of the item, the last one when the list has several. -/
def specRecordFor (userInteractions : List UserVideoInteraction) (id : UUID) :
    Option UserVideoInteraction :=
  (userInteractions.filter (fun i => decide (i.VideoID = id))).getLast?

/-- A candidate with its score replaced by the adjusted score of the specification,
where the bonus is 3 for each entry "default" of the preference list (the category of
every candidate). -/
def specPersonalized (now : Time) (userInteractions : List UserVideoInteraction)
    (userPreferences : UserPreference) (v : Video) : Option Video :=
  (specAdjustedScore now v.Score (specRecordFor userInteractions v.ID)
    (3 * (userPreferences.Categories.count "default" : ℚ))).map
    (fun a => { v with Score := a })

/-! ## Example data -/

def exVideo : Video :=
  { ID := 7, Title := "t", Data := "d", Score := 10, Views := 0, Likes := 0, Comments := 0,
    Shares := 0, WatchTime := 0, CreatedAt := 0, UpdatedAt := 0 }

def exState : State :=
  { videos := [exVideo], user_video_interactions := [], video_ranking := [] }

def exEnv : Env :=
  { getVideoErr := false, updateVideoErr := false, zaddErr := false,
    updateInteractionErr := false, now := 100 }

def exLike : VideoEvent := { VideoID := 7, Action := "like", UserID := "u", Value := .null }

def exWatch (x : ℚ) : VideoEvent :=
  { VideoID := 7, Action := "watch_time", UserID := "u", Value := .float64 x }

def exInteraction : UserVideoInteraction :=
  { UserID := "u", VideoID := 7, LastViewed := 0, Views := 2, Likes := 1, Comments := 0,
    Shares := 0, WatchTime := 60 }

def exPreference (categories : List String) : UserPreference :=
  { UserID := "u", Categories := categories, UpdatedAt := 0 }

def exView : VideoEvent := { VideoID := 7, Action := "view", UserID := "u", Value := .null }

/-- A leaderboard that ranks item 7 while the table of videos is empty. -/
def exLaggingStore : State :=
  { videos := [], user_video_interactions := [], video_ranking := [(7, 10)] }

/-- A leaderboard that lags behind the table of videos: item 2 has score 20 in the
table and 5 in the leaderboard. -/
def exLaggingLeaderboard : State :=
  { videos := [{ exVideo with ID := 1, Score := 10 }, { exVideo with ID := 2, Score := 20 }],
    user_video_interactions := [], video_ranking := [(1, 10), (2, 5)] }

/-- Two items of equal score 10 in the table and in the leaderboard. -/
def exTiedLeaderboard : State :=
  { videos := [{ exVideo with ID := 1, Score := 10 }, { exVideo with ID := 2, Score := 10 }],
    user_video_interactions := [], video_ranking := [(1, 10), (2, 10)] }

/-- A store in which user "u" has a stored preference and a live cache entry. -/
def exPreferenceState : State :=
  { videos := [exVideo], user_video_interactions := [], video_ranking := [],
    user_preferences := [exPreference ["news"]],
    preference_cache :=
      [{ userID := "u", preferences := exPreference ["music"], expiresAt := 1000 }] }

/-- A store in which item 7 has score 10 and 3 views, and is ranked at score 10. -/
def exRankedState : State :=
  { videos := [{ exVideo with Views := 3 }], user_video_interactions := [],
    video_ranking := [(7, 10)] }

/-- The example item with the score 2 ^ 53. -/
def exHugeVideo : Video := { exVideo with Score := 9007199254740992 }

/-- A store that holds the example item with the score 2 ^ 53. -/
def exHugeState : State :=
  { videos := [exHugeVideo], user_video_interactions := [], video_ranking := [] }

/-- The example item with the greatest 64-bit integer as its views counter. -/
def exFullVideo : Video := { exVideo with Views := 9223372036854775807 }

/-- A store that holds the example item with the greatest views counter. -/
def exFullState : State :=
  { videos := [exFullVideo], user_video_interactions := [], video_ranking := [] }

/-- A leaderboard of four items, two of them of equal score, each with a row of the
same score. -/
def exFourLeaderboard : State :=
  { videos := [{ exVideo with ID := 1, Score := 10 }, { exVideo with ID := 2, Score := 10 },
               { exVideo with ID := 3, Score := 5 }, { exVideo with ID := 4, Score := 1 }],
    user_video_interactions := [],
    video_ranking := [(4, 1), (1, 10), (3, 5), (2, 10)] }

/-- A store in which user "u" has a stored preference and a live cache entry, and user
"v" has a stored preference and no cache entry. -/
def exTwoUserState : State :=
  { videos := [exVideo], user_video_interactions := [], video_ranking := [],
    user_preferences := [exPreference ["news"],
      { UserID := "v", Categories := ["sports"], UpdatedAt := 5 }],
    preference_cache :=
      [{ userID := "u", preferences := exPreference ["music"], expiresAt := 1000 }] }

/-! ## Lemmas on the event processor -/

theorem selectVideo_id {rows : List Video} {id : UUID} {v : Video}
    (h : selectVideo rows id = some v) : v.ID = id := by
  have := List.find?_some h
  simpa using this

theorem selectVideo_map_update (rows : List Video) (id : UUID) (f : Video → Video)
    (hf : ∀ r, (f r).ID = r.ID) :
    selectVideo (rows.map (fun r => if r.ID = id then f r else r)) id
      = (selectVideo rows id).map f := by
  induction rows with
  | nil => rfl
  | cons r rest ih =>
    unfold selectVideo at ih ⊢
    by_cases hr : r.ID = id
    · simp [List.find?, hr, hf]
    · simp [List.find?, hr, ih]

theorem applyAction_frame {event : VideoEvent} {video video1 : Video}
    (h : applyAction event video = .ok video1) :
    video1.ID = video.ID ∧ video1.Title = video.Title ∧ video1.Data = video.Data
      ∧ video1.CreatedAt = video.CreatedAt ∧ video1.UpdatedAt = video.UpdatedAt := by
  unfold applyAction at h
  split_ifs at h
  · cases h; simp
  · cases h; simp
  · cases h; simp
  · cases h; simp
  · split at h
    · cases h; simp
    · cases h

/-- A successful call found the video, the switch accepted the event, and the row of
the video afterwards is the switched video stamped with the clock reading. -/
theorem ProcessVideoEvent_ok {env : Env} {s : State} {event : VideoEvent}
    (h : (ProcessVideoEvent env s event).1 = .ok ()) :
    ∃ video video1, selectVideo s.videos event.VideoID = some video
      ∧ applyAction event video = .ok video1
      ∧ selectVideo (ProcessVideoEvent env s event).2.videos event.VideoID
          = some { video1 with UpdatedAt := env.now } := by
  unfold ProcessVideoEvent RankingService.GetVideo PostgresStore.GetVideo at *
  cases hg : env.getVideoErr with
  | true => simp [hg] at h
  | false =>
    simp only [hg, Bool.false_eq_true, if_false] at h ⊢
    cases hsel : selectVideo s.videos event.VideoID with
    | none => simp [hsel] at h
    | some video =>
      simp only [hsel] at h ⊢
      cases happ : applyAction event video with
      | error e => simp [happ] at h
      | ok video1 =>
        simp only [happ] at h ⊢
        obtain ⟨hid, htitle, hdata, hcr, hup⟩ := applyAction_frame happ
        have hvid := selectVideo_id hsel
        unfold RankingService.UpdateVideo PostgresStore.UpdateVideo at *
        cases hu : env.updateVideoErr with
        | true => simp [hu] at h
        | false =>
          refine ⟨video, video1, rfl, happ, ?_⟩
          have hvideos : ∀ st i, (RankingService.UpdateUserVideoInteraction env
              (RankingService.updateVideoInRedis env st video1).2 i).2.videos = st.videos := by
            intro st i
            unfold RankingService.UpdateUserVideoInteraction
              PostgresStore.UpdateUserVideoInteraction RankingService.updateVideoInRedis
              RedisStore.UpdateVideoScore
            split_ifs <;> rfl
          simp only [hu, Bool.false_eq_true, if_false, hvideos]
          rw [hid, hvid]
          rw [selectVideo_map_update s.videos event.VideoID
            (fun r => { r with Title := video1.Title, Data := video1.Data, Score := video1.Score,
                               Views := video1.Views, Likes := video1.Likes,
                               Comments := video1.Comments, Shares := video1.Shares,
                               WatchTime := video1.WatchTime, UpdatedAt := env.now })
            (fun r => rfl), hsel]
          simp only [Option.map_some']
          congr 1
          cases video; cases video1
          simp_all

theorem wrapInt64_wrap_add (a b : Int) : wrapInt64 (wrapInt64 a + b) = wrapInt64 (a + b) := by
  unfold wrapInt64
  omega

theorem wrapInt64_of_range {n : Int} (h1 : minInt64 ≤ n) (h2 : n ≤ maxInt64) :
    wrapInt64 n = n := by
  unfold wrapInt64
  unfold minInt64 at h1
  unfold maxInt64 at h2
  omega

theorem applyAction_effect {event : VideoEvent} {video video1 : Video}
    (h : applyAction event video = .ok video1) :
    video1.Score = video.Score + specWeight event
      ∧ video1.Views
          = (if event.Action = "view" then wrapInt64 (video.Views + 1) else video.Views)
      ∧ video1.Likes
          = (if event.Action = "like" then wrapInt64 (video.Likes + 1) else video.Likes)
      ∧ video1.Comments
          = (if event.Action = "comment" then wrapInt64 (video.Comments + 1)
              else video.Comments)
      ∧ video1.Shares
          = (if event.Action = "share" then wrapInt64 (video.Shares + 1) else video.Shares)
      ∧ video1.WatchTime
          = (if event.Action = "watch_time"
              then wrapInt64 (video.WatchTime + watchIncrement event)
              else video.WatchTime) := by
  unfold applyAction at h
  simp only [ViewAction, LikeAction, CommentAction, ShareAction, WatchTimeAction] at h
  unfold specWeight watchIncrement
  split_ifs at h with h1 h2 h3 h4 h5
  · cases h; simp [h1]
  · cases h; simp [h2]
  · cases h; simp [h3]
  · cases h; simp [h4]
  · split at h
    · rename_i x hx
      cases h; simp [h5, hx]; norm_num
    · cases h

theorem countAction_cons (action : String) (env : Env) (event : VideoEvent)
    (rest : List (Env × VideoEvent)) :
    countAction action ((env, event) :: rest)
      = actionIncrement action event + countAction action rest := by
  unfold countAction actionIncrement
  by_cases h : event.Action = action
  · simp [List.filter, h]; ring
  · simp [List.filter, h]

theorem countAction_nonneg (action : String) (events : List (Env × VideoEvent)) :
    0 ≤ countAction action events := by
  unfold countAction
  exact Int.natCast_nonneg _

theorem watchIncrement_sum_zero (events : List (Env × VideoEvent))
    (h : countAction "watch_time" events = 0) :
    (events.map (fun p => watchIncrement p.2)).sum = 0 := by
  induction events with
  | nil => rfl
  | cons p rest ih =>
    obtain ⟨env, event⟩ := p
    rw [countAction_cons] at h
    have h1 : 0 ≤ actionIncrement "watch_time" event := by
      unfold actionIncrement; split_ifs <;> norm_num
    have h2 : 0 ≤ countAction "watch_time" rest := countAction_nonneg _ _
    have h3 : actionIncrement "watch_time" event = 0 := by omega
    have h4 : countAction "watch_time" rest = 0 := by omega
    have h5 : event.Action ≠ "watch_time" := by
      intro hc
      simp [actionIncrement, hc] at h3
    simp only [List.map_cons, List.sum_cons, ih h4, add_zero]
    simp [watchIncrement, h5]

/-- One more addition in front of a run of additions to a 64-bit counter. -/
theorem counter_cons (touched : Prop) [Decidable touched] (a d nrest trest : Int)
    (hn : 0 ≤ nrest) (hd : ¬ touched → d = 0) (ht : nrest = 0 → trest = 0) :
    (if nrest = 0 then (if touched then wrapInt64 (a + d) else a)
      else wrapInt64 ((if touched then wrapInt64 (a + d) else a) + trest))
      = (if (if touched then (1 : Int) else 0) + nrest = 0 then a
          else wrapInt64 (a + (d + trest))) := by
  by_cases h1 : touched
  · by_cases h2 : nrest = 0
    · rw [if_pos h2, if_pos h1, if_pos h1, if_neg (by omega), ht h2, add_zero]
    · rw [if_neg h2, if_pos h1, if_pos h1, if_neg (by omega), wrapInt64_wrap_add, add_assoc]
  · by_cases h2 : nrest = 0
    · rw [if_pos h2, if_neg h1, if_neg h1, if_pos (by omega)]
    · rw [if_neg h2, if_neg h1, if_neg h1, if_neg (by omega), hd h1, zero_add]

/-- The row of one item after a run of successful events on it: the score in exact
arithmetic and the counters in 64-bit arithmetic. -/
theorem ConsumeVideoEvents_effect (id : UUID) (events : List (Env × VideoEvent)) :
    ∀ (s : State) (v : Video), selectVideo s.videos id = some v →
      (∀ p ∈ events, p.2.VideoID = id) →
      (∀ r ∈ (ConsumeVideoEvents s events).1, r = .ok ()) →
      ∃ v1, selectVideo (ConsumeVideoEvents s events).2.videos id = some v1
        ∧ v1.Score = v.Score + (events.map (fun p => specWeight p.2)).sum
        ∧ v1.Views = (if countAction "view" events = 0 then v.Views
            else wrapInt64 (v.Views + countAction "view" events))
        ∧ v1.Likes = (if countAction "like" events = 0 then v.Likes
            else wrapInt64 (v.Likes + countAction "like" events))
        ∧ v1.Comments = (if countAction "comment" events = 0 then v.Comments
            else wrapInt64 (v.Comments + countAction "comment" events))
        ∧ v1.Shares = (if countAction "share" events = 0 then v.Shares
            else wrapInt64 (v.Shares + countAction "share" events))
        ∧ v1.WatchTime = (if countAction "watch_time" events = 0 then v.WatchTime
            else wrapInt64 (v.WatchTime + (events.map (fun p => watchIncrement p.2)).sum)) := by
  induction events with
  | nil =>
    intro s v hv _ _
    exact ⟨v, hv, by simp [countAction]⟩
  | cons p rest ih =>
    intro s v hv hid hok
    obtain ⟨env, event⟩ := p
    have he : event.VideoID = id := hid (env, event) (List.mem_cons_self _ _)
    simp only [ConsumeVideoEvents, List.mem_cons, forall_eq_or_imp] at hok
    obtain ⟨hok1, hok2⟩ := hok
    obtain ⟨video, video1, hsel, happ, hafter⟩ := ProcessVideoEvent_ok hok1
    rw [he] at hsel hafter
    rw [hv] at hsel
    cases hsel
    obtain ⟨v2, hv2, hs, h1, h2, h3, h4, h5⟩ :=
      ih (ProcessVideoEvent env s event).2 _ hafter
        (fun q hq => hid q (List.mem_cons_of_mem _ hq)) hok2
    obtain ⟨es, e1, e2, e3, e4, e5⟩ := applyAction_effect happ
    have hstep : ∀ (action : String) (a : Int),
        (if countAction action rest = 0
          then (if event.Action = action then wrapInt64 (a + 1) else a)
          else wrapInt64 ((if event.Action = action then wrapInt64 (a + 1) else a)
            + countAction action rest))
        = (if countAction action ((env, event) :: rest) = 0 then a
            else wrapInt64 (a + countAction action ((env, event) :: rest))) := by
      intro action a
      rw [countAction_cons]
      unfold actionIncrement
      by_cases ha : event.Action = action
      · have := counter_cons (event.Action = action) a 1 (countAction action rest)
          (countAction action rest) (countAction_nonneg _ _) (fun h => absurd ha h)
          (fun h => h)
        simpa [ha] using this
      · have := counter_cons (event.Action = action) a 0 (countAction action rest)
          (countAction action rest) (countAction_nonneg _ _) (fun _ => rfl) (fun h => h)
        simp [ha]
    refine ⟨v2, hv2, ?_, ?_, ?_, ?_, ?_, ?_⟩
    · simp only [List.map_cons, List.sum_cons]; rw [hs]; simp only [es]; ring
    · rw [h1, ← hstep "view" v.Views]; simp only [e1]
    · rw [h2, ← hstep "like" v.Likes]; simp only [e2]
    · rw [h3, ← hstep "comment" v.Comments]; simp only [e3]
    · rw [h4, ← hstep "share" v.Shares]; simp only [e4]
    · rw [h5]
      simp only [e5, List.map_cons, List.sum_cons]
      have hw0 : ¬ event.Action = "watch_time" → watchIncrement event = 0 := by
        intro hne
        simp [watchIncrement, hne]
      have := counter_cons (event.Action = "watch_time") v.WatchTime (watchIncrement event)
        (countAction "watch_time" rest) ((rest.map (fun p => watchIncrement p.2)).sum)
        (countAction_nonneg _ _) hw0 (watchIncrement_sum_zero rest)
      rw [this, countAction_cons]
      rfl

theorem specWeight_nonneg (event : VideoEvent)
    (hval : ∀ x, event.Action = "watch_time" → event.Value = .float64 x → 0 ≤ x) :
    0 ≤ specWeight event := by
  unfold specWeight
  split_ifs with h1 h2 h3 h4 h5
  · norm_num
  · norm_num
  · norm_num
  · norm_num
  · split
    · rename_i x hx
      have := hval x h5 hx
      positivity
    · exact le_refl _
  · exact le_refl _

theorem truncInt_intCast (n : Int) : truncInt (n : ℚ) = n := by
  unfold truncInt
  split_ifs <;> simp

theorem truncInt_range {x : ℚ} (h : |x| < 9223372036854775808) :
    minInt64 ≤ truncInt x ∧ truncInt x ≤ maxInt64 := by
  unfold truncInt minInt64 maxInt64
  have h1 := (abs_lt.mp h).1
  have h2 := (abs_lt.mp h).2
  split_ifs with h0
  · have hf : ⌊x⌋ < 9223372036854775808 := by
      rw [Int.floor_lt]
      exact_mod_cast h2
    have hf0 : 0 ≤ ⌊x⌋ := Int.floor_nonneg.mpr h0
    omega
  · have hc : (-9223372036854775808 : Int) < ⌈x⌉ := by
      rw [Int.lt_ceil]
      exact_mod_cast h1
    have hc0 : ⌈x⌉ ≤ 0 := by
      rw [Int.ceil_le]
      exact_mod_cast le_of_lt (not_le.mp h0)
    omega

theorem goInt_of_range {x : ℚ} (h : |x| < 9223372036854775808) : goInt x = truncInt x := by
  unfold goInt
  rw [if_pos (truncInt_range h)]

theorem goInt_intCast (n : Int) (h1 : minInt64 ≤ n) (h2 : n ≤ maxInt64) :
    goInt (n : ℚ) = n := by
  unfold goInt
  rw [truncInt_intCast, if_pos ⟨h1, h2⟩]

theorem truncInt_eq_specTruncate (x : ℚ) : truncInt x = specTruncate x := by
  unfold truncInt specTruncate
  by_cases h : 0 ≤ x
  · rw [if_pos h, if_neg (not_lt.mpr h), abs_of_nonneg h]
  · rw [if_neg h, if_pos (not_le.mp h), abs_of_neg (not_le.mp h), Int.floor_neg, neg_neg]

theorem truncInt_three_halves : truncInt (3 / 2) = 1 := by
  unfold truncInt
  rw [if_pos (by norm_num), Int.floor_eq_iff]
  norm_num

theorem goInt_three_halves : goInt (3 / 2) = 1 := by
  rw [goInt_of_range (by rw [abs_lt]; constructor <;> norm_num), truncInt_three_halves]

theorem goInt_ten_pow_19 : goInt 10000000000000000000 = minInt64 := by
  have h : truncInt (10000000000000000000 : ℚ) = 10000000000000000000 := by
    have := truncInt_intCast 10000000000000000000
    push_cast at this
    exact this
  unfold goInt
  rw [h, if_neg]
  unfold maxInt64
  omega

theorem watchIncrement_of_range (event : VideoEvent)
    (hrange : ∀ x, event.Action = "watch_time" → event.Value = .float64 x →
      |x| < 9223372036854775808) :
    watchIncrement event = specTruncatedWatchValue event := by
  unfold watchIncrement specTruncatedWatchValue
  split_ifs with ha
  · cases hv : event.Value with
    | float64 x => exact (goInt_of_range (hrange x ha hv)).trans (truncInt_eq_specTruncate x)
    | null => rfl
    | string _ => rfl
    | bool _ => rfl
  · rfl

theorem watchIncrement_sum_of_range (events : List (Env × VideoEvent))
    (hrange : ∀ p ∈ events, ∀ x, p.2.Action = "watch_time" → p.2.Value = .float64 x →
      |x| < 9223372036854775808) :
    (events.map (fun p => watchIncrement p.2)).sum
      = (events.map (fun p => specTruncatedWatchValue p.2)).sum := by
  induction events with
  | nil => rfl
  | cons p rest ih =>
    simp only [List.map_cons, List.sum_cons]
    rw [ih (fun q hq => hrange q (List.mem_cons_of_mem _ hq)),
      watchIncrement_of_range p.2 (hrange p (List.mem_cons_self _ _))]

theorem specTruncatedWatchValue_integral (events : List (Env × VideoEvent))
    (hint : ∀ p ∈ events, ∀ x, p.2.Value = .float64 x → ∃ n : Int, x = (n : ℚ)) :
    (((events.map (fun p => specTruncatedWatchValue p.2)).sum : Int) : ℚ)
      = (events.map (fun p => specWatchValue p.2)).sum := by
  induction events with
  | nil => simp
  | cons p rest ih =>
    have hrest := ih (fun q hq => hint q (List.mem_cons_of_mem _ hq))
    have hp := hint p (List.mem_cons_self _ _)
    simp only [List.map_cons, List.sum_cons, Int.cast_add, hrest]
    congr 1
    unfold specTruncatedWatchValue specWatchValue
    split_ifs
    · cases hv : p.2.Value with
      | float64 x =>
        obtain ⟨n, hn⟩ := hp x hv
        simp only [hn, ← truncInt_eq_specTruncate, truncInt_intCast]
      | null => simp
      | string _ => simp
      | bool _ => simp
    · simp


/-- A counter whose total stays within the 64-bit integers is the exact total. -/
theorem counter_of_range (a c : Int) (h : minInt64 ≤ a + c ∧ a + c ≤ maxInt64) :
    (if c = 0 then a else wrapInt64 (a + c)) = a + c := by
  split_ifs with hc
  · rw [hc, add_zero]
  · exact wrapInt64_of_range h.1 h.2

/-- One addition to a counter whose total stays within the 64-bit integers. -/
theorem counter_step_of_range (touched : Prop) [Decidable touched] (a d : Int)
    (h : minInt64 ≤ a + (if touched then d else 0)
      ∧ a + (if touched then d else 0) ≤ maxInt64) :
    (if touched then wrapInt64 (a + d) else a) = a + (if touched then d else 0) := by
  by_cases ht : touched
  · rw [if_pos ht] at h
    rw [if_pos ht, if_pos ht]
    exact wrapInt64_of_range h.1 h.2
  · rw [if_neg ht, if_neg ht, add_zero]

/-! ## Lemmas on float64 arithmetic -/

theorem roundHalfEven_intCast (k : Int) : roundHalfEven (k : ℚ) = k := by
  unfold roundHalfEven
  simp

theorem roundHalfEven_tie (x : ℚ) (f : Int) (hx : x = f + 1 / 2) :
    roundHalfEven x = if f % 2 = 0 then f else f + 1 := by
  have hf : ⌊x⌋ = f := by
    rw [Int.floor_eq_iff, hx]
    constructor <;> linarith
  unfold roundHalfEven
  rw [hf, hx]
  norm_num

theorem roundHalfEven_down (x : ℚ) (f : Int) (h1 : (f : ℚ) ≤ x) (h2 : x < f + 1 / 2) :
    roundHalfEven x = f := by
  have hf : ⌊x⌋ = f := by
    rw [Int.floor_eq_iff]
    constructor <;> linarith
  unfold roundHalfEven
  rw [hf, if_pos (by linarith)]

theorem roundHalfEven_up (x : ℚ) (f : Int) (h1 : (f : ℚ) + 1 / 2 < x) (h2 : x < f + 1) :
    roundHalfEven x = f + 1 := by
  have hf : ⌊x⌋ = f := by
    rw [Int.floor_eq_iff]
    constructor <;> linarith
  unfold roundHalfEven
  rw [hf, if_neg (by linarith), if_pos (by linarith)]

theorem f64Ulp_pos (x : ℚ) : 0 < f64Ulp x := by
  unfold f64Ulp
  positivity

theorem f64Ulp_eq (x : ℚ) (e : Int) (h1 : (2 : ℚ) ^ e ≤ |x|) (h2 : |x| < (2 : ℚ) ^ (e + 1))
    (he : -1022 ≤ e) : f64Ulp x = (2 : ℚ) ^ (e - 52) := by
  have h0 : 0 < |x| := lt_of_lt_of_le (by positivity) h1
  have hlog : Int.log 2 |x| = e := by
    apply le_antisymm
    · have := (@Int.lt_zpow_iff_log_lt ℚ _ _ 2 (by norm_num) (e + 1) |x| h0).mp
        (by exact_mod_cast h2)
      omega
    · exact (@Int.zpow_le_iff_le_log ℚ _ _ 2 (by norm_num) e |x| h0).mp
        (by exact_mod_cast h1)
  unfold f64Ulp
  rw [hlog, max_eq_left he]

/-- A rational that is an integer multiple of its unit in the last place and below the
overflow threshold is a float64 value. -/
theorem roundF64_of_multiple (x : ℚ) (k : Int) (hk : x = k * f64Ulp x)
    (hfin : |x| < 2 ^ 1024) : roundF64 x = some x := by
  have hpos := f64Ulp_pos x
  have hdiv : x / f64Ulp x = k := by
    rw [div_eq_iff (ne_of_gt hpos)]
    exact hk
  unfold roundF64
  rw [hdiv, roundHalfEven_intCast, ← hk, if_pos hfin]

theorem roundF64_eq (x : ℚ) (e k : Int) (h1 : (2 : ℚ) ^ e ≤ |x|)
    (h2 : |x| < (2 : ℚ) ^ (e + 1)) (he : -1022 ≤ e)
    (hk : roundHalfEven (x / (2 : ℚ) ^ (e - 52)) = k)
    (hfin : |(k : ℚ) * (2 : ℚ) ^ (e - 52)| < 2 ^ 1024) :
    roundF64 x = some ((k : ℚ) * (2 : ℚ) ^ (e - 52)) := by
  unfold roundF64
  rw [f64Ulp_eq x e h1 h2 he, hk, if_pos hfin]

theorem roundF64_zero : roundF64 0 = some 0 := by
  unfold roundF64
  simp [roundHalfEven_intCast, roundHalfEven]

/-- Every integer of magnitude at most 2^53 is a float64 value. -/
theorem roundF64_intCast (n : Int) (hn : |n| ≤ 9007199254740992) :
    roundF64 (n : ℚ) = some (n : ℚ) := by
  by_cases h0 : n = 0
  · rw [h0]
    exact_mod_cast roundF64_zero
  have habs1 : (1 : ℚ) ≤ |(n : ℚ)| := by
    have : (1 : Int) ≤ |n| := Int.one_le_abs h0
    exact_mod_cast this
  have habs2 : |(n : ℚ)| ≤ 9007199254740992 := by exact_mod_cast hn
  have hpos : 0 < |(n : ℚ)| := lt_of_lt_of_le one_pos habs1
  have hfin : |(n : ℚ)| < 2 ^ 1024 := lt_of_le_of_lt habs2 (by norm_num)
  have hlo : 0 ≤ Int.log 2 |(n : ℚ)| :=
    (@Int.zpow_le_iff_le_log ℚ _ _ 2 (by norm_num) 0 |(n : ℚ)| hpos).mp (by simpa using habs1)
  have hhi : Int.log 2 |(n : ℚ)| < 54 :=
    (@Int.lt_zpow_iff_log_lt ℚ _ _ 2 (by norm_num) 54 |(n : ℚ)| hpos).mp
      (lt_of_le_of_lt habs2 (by norm_num))
  have hle : ((2 : ℕ) : ℚ) ^ Int.log 2 |(n : ℚ)| ≤ |(n : ℚ)| :=
    Int.zpow_log_le_self (by norm_num) hpos
  have hulp : f64Ulp (n : ℚ) = (2 : ℚ) ^ (Int.log 2 |(n : ℚ)| - 52) := by
    unfold f64Ulp
    rw [max_eq_left (by omega)]
  generalize Int.log 2 |(n : ℚ)| = e at hlo hhi hle hulp
  by_cases he : e ≤ 52
  · obtain ⟨m, hm⟩ : ∃ m : ℕ, (m : Int) = 52 - e := ⟨(52 - e).toNat, by omega⟩
    refine roundF64_of_multiple (n : ℚ) (n * 2 ^ m) ?_ hfin
    rw [hulp]
    have : e - 52 = -(m : Int) := by omega
    rw [this, zpow_neg, zpow_natCast]
    push_cast
    field_simp
  · have he53 : e = 53 := by omega
    subst he53
    have h2 : (9007199254740992 : ℚ) ≤ |(n : ℚ)| := by
      have : ((2 : ℕ) : ℚ) ^ (53 : Int) = 9007199254740992 := by norm_num
      rw [this] at hle
      exact hle
    have habs : |n| = 9007199254740992 := by
      have : (9007199254740992 : Int) ≤ |n| := by exact_mod_cast h2
      omega
    obtain ⟨j, hj⟩ : ∃ j : Int, n = 2 * j := by
      rcases abs_eq (by norm_num : (0 : Int) ≤ 9007199254740992) |>.mp habs with h | h
      · exact ⟨4503599627370496, by omega⟩
      · exact ⟨-4503599627370496, by omega⟩
    refine roundF64_of_multiple (n : ℚ) j ?_ hfin
    rw [hulp, hj]
    norm_num
    ring

theorem roundF64_two_pow_53_add_one :
    roundF64 (9007199254740992 + 1) = some 9007199254740992 := by
  have h := roundF64_eq (9007199254740992 + 1) 53 4503599627370496
    (by rw [abs_of_pos (by norm_num)]; norm_num)
    (by rw [abs_of_pos (by norm_num)]; norm_num) (by norm_num)
    (by rw [roundHalfEven_tie _ 4503599627370496 (by norm_num)]; norm_num)
    (by rw [abs_of_pos (by norm_num)]; norm_num)
  rw [h]
  norm_num

theorem roundF64_two_pow_53_add_five :
    roundF64 (9007199254740992 + 5) = some 9007199254740996 := by
  have h := roundF64_eq (9007199254740992 + 5) 53 4503599627370498
    (by rw [abs_of_pos (by norm_num)]; norm_num)
    (by rw [abs_of_pos (by norm_num)]; norm_num) (by norm_num)
    (by rw [roundHalfEven_tie _ 4503599627370498 (by norm_num)]; norm_num)
    (by rw [abs_of_pos (by norm_num)]; norm_num)
  rw [h]
  norm_num

theorem roundF64_two_pow_53_add_nine :
    roundF64 (9007199254740996 + 5) = some 9007199254741000 := by
  have h := roundF64_eq (9007199254740996 + 5) 53 4503599627370500
    (by rw [abs_of_pos (by norm_num)]; norm_num)
    (by rw [abs_of_pos (by norm_num)]; norm_num) (by norm_num)
    (by rw [roundHalfEven_tie _ 4503599627370500 (by norm_num)]; norm_num)
    (by rw [abs_of_pos (by norm_num)]; norm_num)
  rw [h]
  norm_num

theorem f64Const005_eq : f64Const005 = some (3602879701896397 / 72057594037927936) := by
  unfold f64Const005
  have h := roundF64_eq 0.05 (-5) 7205759403792794
    (by rw [abs_of_pos (by norm_num)]; norm_num)
    (by rw [abs_of_pos (by norm_num)]; norm_num) (by norm_num)
    (by
      have := roundHalfEven_up (0.05 / (2 : ℚ) ^ ((-5 : Int) - 52)) 7205759403792793
        (by norm_num) (by norm_num)
      rw [this]
      norm_num)
    (by rw [abs_of_pos (by norm_num)]; norm_num)
  rw [h]
  norm_num

theorem roundF64_const005 :
    roundF64 (3602879701896397 / 72057594037927936)
      = some (3602879701896397 / 72057594037927936) := by
  have h := roundF64_eq (3602879701896397 / 72057594037927936) (-5) 7205759403792794
    (by rw [abs_of_pos (by norm_num)]; norm_num)
    (by rw [abs_of_pos (by norm_num)]; norm_num) (by norm_num)
    (by
      have : (3602879701896397 / 72057594037927936 : ℚ) / (2 : ℚ) ^ ((-5 : Int) - 52)
          = ((7205759403792794 : Int) : ℚ) := by norm_num
      rw [this, roundHalfEven_intCast])
    (by rw [abs_of_pos (by norm_num)]; norm_num)
  rw [h]
  norm_num

theorem accumulateF64_two_views :
    accumulateF64 (some 9007199254740992) [exView, exView] = some 9007199254740992 := by
  have hv : scoreF64 exView (some 9007199254740992) = some 9007199254740992 := by
    unfold scoreF64
    rw [if_pos (show exView.Action = ViewAction from rfl)]
    exact roundF64_two_pow_53_add_one
  unfold accumulateF64 accumulateF64 accumulateF64
  rw [hv, hv]

theorem accumulateF64_two_likes :
    accumulateF64 (some 9007199254740992) [exLike, exLike] = some 9007199254741000 := by
  have hne : ¬ (exLike.Action = ViewAction) := by decide
  have h1 : scoreF64 exLike (some 9007199254740992) = some 9007199254740996 := by
    unfold scoreF64
    rw [if_neg hne, if_pos (show exLike.Action = LikeAction from rfl)]
    exact roundF64_two_pow_53_add_five
  have h2 : scoreF64 exLike (some 9007199254740996) = some 9007199254741000 := by
    unfold scoreF64
    rw [if_neg hne, if_pos (show exLike.Action = LikeAction from rfl)]
    exact roundF64_two_pow_53_add_nine
  unfold accumulateF64 accumulateF64 accumulateF64
  rw [h1, h2]

theorem accumulateF64_watch_one :
    accumulateF64 (some 0) [exWatch 1] = some (3602879701896397 / 72057594037927936) := by
  simp [accumulateF64, scoreF64, exWatch, ViewAction, LikeAction, CommentAction, ShareAction,
    WatchTimeAction, f64Add, f64Mul, f64Const005_eq, roundF64_const005]

/-- The first switch of `ProcessVideoEvent` accepts every valid event. -/
theorem applyAction_of_valid (event : VideoEvent) (video : Video)
    (h : validEvent event = true) : ∃ video1, applyAction event video = .ok video1 := by
  unfold validEvent at h
  unfold applyAction
  simp only [ViewAction, LikeAction, CommentAction, ShareAction, WatchTimeAction]
  simp only [Bool.or_eq_true, Bool.and_eq_true, beq_iff_eq] at h
  by_cases h1 : event.Action = "view"
  · exact ⟨_, by rw [if_pos h1]⟩
  by_cases h2 : event.Action = "like"
  · exact ⟨_, by rw [if_neg h1, if_pos h2]⟩
  by_cases h3 : event.Action = "comment"
  · exact ⟨_, by rw [if_neg h1, if_neg h2, if_pos h3]⟩
  by_cases h4 : event.Action = "share"
  · exact ⟨_, by rw [if_neg h1, if_neg h2, if_neg h3, if_pos h4]⟩
  rcases h with (((h | h) | h) | h) | ⟨h5, hv⟩
  · exact absurd h h1
  · exact absurd h h2
  · exact absurd h h3
  · exact absurd h h4
  · rw [if_neg h1, if_neg h2, if_neg h3, if_neg h4, if_pos h5]
    cases hval : event.Value with
    | float64 x => exact ⟨_, rfl⟩
    | null => simp [hval] at hv
    | string _ => simp [hval] at hv
    | bool _ => simp [hval] at hv

/-- The float64 product of a multiple of 20 and the constant `0.05` is the exact
twentieth, for a magnitude of at most 2 ^ 53. -/
theorem roundF64_mul_const005 (k : Int) (hk : |k| ≤ 9007199254740992) :
    roundF64 ((20 * k : ℚ) * (3602879701896397 / 72057594037927936)) = some (k : ℚ) := by
  have hy : (20 * k : ℚ) * (3602879701896397 / 72057594037927936)
      = k + k / 18014398509481984 := by ring
  rw [hy]
  by_cases h0 : k = 0
  · subst h0
    simpa using roundF64_zero
  have habs1 : (1 : ℚ) ≤ |(k : ℚ)| := by
    have : (1 : Int) ≤ |k| := Int.one_le_abs h0
    exact_mod_cast this
  have habs2 : |(k : ℚ)| ≤ 9007199254740992 := by exact_mod_cast hk
  have hpos : 0 < |(k : ℚ)| := lt_of_lt_of_le one_pos habs1
  have hlo : 0 ≤ Int.log 2 |(k : ℚ)| :=
    (@Int.zpow_le_iff_le_log ℚ _ _ 2 (by norm_num) 0 |(k : ℚ)| hpos).mp (by simpa using habs1)
  have hhi : Int.log 2 |(k : ℚ)| < 54 :=
    (@Int.lt_zpow_iff_log_lt ℚ _ _ 2 (by norm_num) 54 |(k : ℚ)| hpos).mp
      (lt_of_le_of_lt habs2 (by norm_num))
  have hle : ((2 : ℕ) : ℚ) ^ Int.log 2 |(k : ℚ)| ≤ |(k : ℚ)| :=
    Int.zpow_log_le_self (by norm_num) hpos
  have hlt : |(k : ℚ)| < ((2 : ℕ) : ℚ) ^ (Int.log 2 |(k : ℚ)| + 1) :=
    Int.lt_zpow_succ_log_self (by norm_num) _
  generalize Int.log 2 |(k : ℚ)| = e at hlo hhi hle hlt
  simp only [Nat.cast_ofNat] at hle hlt
  have hyabs : |(k : ℚ) + k / 18014398509481984|
      = |(k : ℚ)| + |(k : ℚ)| / 18014398509481984 := by
    rw [show (k : ℚ) + k / 18014398509481984 = k * (1 + 1 / 18014398509481984) by ring,
      abs_mul, abs_of_pos (by norm_num : (0 : ℚ) < 1 + 1 / 18014398509481984)]
    ring
  -- the next power of two is an integer above |k|
  obtain ⟨n, hn⟩ : ∃ n : ℕ, (n : Int) = e + 1 := ⟨(e + 1).toNat, by omega⟩
  have hpow : ((2 : ℚ) ^ (e + 1)) = (((2 : Int) ^ n : Int) : ℚ) := by
    rw [← hn, zpow_natCast]
    push_cast
    rfl
  have hsucc : |(k : ℚ)| + 1 ≤ (2 : ℚ) ^ (e + 1) := by
    rw [hpow] at hlt ⊢
    have : |k| < (2 : Int) ^ n := by exact_mod_cast hlt
    have : |k| + 1 ≤ (2 : Int) ^ n := by omega
    exact_mod_cast this
  have h1 : (2 : ℚ) ^ e ≤ |(k : ℚ) + k / 18014398509481984| := by
    rw [hyabs]
    have : (0 : ℚ) ≤ |(k : ℚ)| / 18014398509481984 := by positivity
    linarith
  have h2 : |(k : ℚ) + k / 18014398509481984| < (2 : ℚ) ^ (e + 1) := by
    rw [hyabs]
    have : |(k : ℚ)| / 18014398509481984 < 1 := by
      rw [div_lt_one (by norm_num)]
      linarith
    linarith
  by_cases he : e ≤ 52
  · obtain ⟨m, hm⟩ : ∃ m : ℕ, (m : Int) = 52 - e := ⟨(52 - e).toNat, by omega⟩
    have hem : e - 52 = -(m : Int) := by omega
    have hulp : (2 : ℚ) ^ (e - 52) = 1 / 2 ^ m := by
      rw [hem, zpow_neg, zpow_natCast, one_div]
    have h2m : (0 : ℚ) < 2 ^ m := by positivity
    -- |k| * 2 ^ m < 2 ^ 53
    have hkm : |(k : ℚ)| * 2 ^ m < 9007199254740992 := by
      have he1 : e + 1 = 53 - (m : Int) := by omega
      rw [he1, zpow_sub₀ (by norm_num), zpow_natCast, lt_div_iff₀ h2m] at hlt
      have : (2 : ℚ) ^ (53 : Int) = 9007199254740992 := by norm_num
      rw [this] at hlt
      exact hlt
    have hdiv : ((k : ℚ) + k / 18014398509481984) / (2 : ℚ) ^ (e - 52)
        = ((k * 2 ^ m : Int) : ℚ) + (k : ℚ) * 2 ^ m / 18014398509481984 := by
      rw [hulp]
      push_cast
      field_simp
      ring
    have hround : roundHalfEven (((k : ℚ) + k / 18014398509481984) / (2 : ℚ) ^ (e - 52))
        = k * 2 ^ m := by
      rw [hdiv]
      rcases lt_or_gt_of_ne h0 with hneg | hposk
      · have hkneg : (k : ℚ) < 0 := by exact_mod_cast hneg
        rw [abs_of_neg hkneg] at hkm
        have := roundHalfEven_up (((k * 2 ^ m : Int) : ℚ) + (k : ℚ) * 2 ^ m / 18014398509481984)
          (k * 2 ^ m - 1)
          (by push_cast
              have : -(1 / 2 : ℚ) < (k : ℚ) * 2 ^ m / 18014398509481984 := by
                rw [lt_div_iff₀ (by norm_num)]
                linarith
              linarith)
          (by push_cast
              have : (k : ℚ) * 2 ^ m / 18014398509481984 < 0 := by
                exact div_neg_of_neg_of_pos (mul_neg_of_neg_of_pos hkneg h2m) (by norm_num)
              linarith)
        rw [this]
        ring
      · have hkpos : (0 : ℚ) < (k : ℚ) := by exact_mod_cast hposk
        rw [abs_of_pos hkpos] at hkm
        exact roundHalfEven_down _ _
          (by have : (0 : ℚ) ≤ (k : ℚ) * 2 ^ m / 18014398509481984 := by positivity
              linarith)
          (by have : (k : ℚ) * 2 ^ m / 18014398509481984 < 1 / 2 := by
                rw [div_lt_iff₀ (by norm_num)]
                linarith
              linarith)
    have hval : ((k * 2 ^ m : Int) : ℚ) * (2 : ℚ) ^ (e - 52) = (k : ℚ) := by
      rw [hulp]
      push_cast
      field_simp
    have h := roundF64_eq ((k : ℚ) + k / 18014398509481984) e (k * 2 ^ m) h1 h2 (by omega)
      hround (by rw [hval]; exact lt_of_le_of_lt habs2 (by norm_num))
    rw [h, hval]
  · have he53 : e = 53 := by omega
    subst he53
    have hle2 : (9007199254740992 : ℚ) ≤ |(k : ℚ)| := by
      have : (2 : ℚ) ^ (53 : Int) = 9007199254740992 := by norm_num
      rw [this] at hle
      exact hle
    have habs : |k| = 9007199254740992 := by
      have : (9007199254740992 : Int) ≤ |k| := by exact_mod_cast hle2
      omega
    rcases abs_eq (by norm_num : (0 : Int) ≤ 9007199254740992) |>.mp habs with h | h
    · subst h
      have hround : roundHalfEven ((((9007199254740992 : Int) : ℚ)
          + ((9007199254740992 : Int) : ℚ) / 18014398509481984) / (2 : ℚ) ^ ((53 : Int) - 52))
          = 4503599627370496 :=
        roundHalfEven_down _ _ (by norm_num) (by norm_num)
      have h := roundF64_eq _ 53 4503599627370496 h1 h2 (by norm_num) hround (by norm_num)
      rw [h]
      norm_num
    · subst h
      have hround : roundHalfEven ((((-9007199254740992 : Int) : ℚ)
          + ((-9007199254740992 : Int) : ℚ) / 18014398509481984) / (2 : ℚ) ^ ((53 : Int) - 52))
          = -4503599627370496 := by
        have := roundHalfEven_up ((((-9007199254740992 : Int) : ℚ)
          + ((-9007199254740992 : Int) : ℚ) / 18014398509481984) / (2 : ℚ) ^ ((53 : Int) - 52))
          (-4503599627370497) (by norm_num) (by norm_num)
        rw [this]
        norm_num
      have h := roundF64_eq _ 53 (-4503599627370496) h1 h2 (by norm_num) hround (by norm_num)
      rw [h]
      norm_num

/-- One event whose weight is a whole number, on a whole score: when the weight and the
new score have a magnitude of at most 2 ^ 53, the float64 update of the score is exact. -/
theorem scoreF64_integral (event : VideoEvent) (w n : Int)
    (hw : specWeight event = (w : ℚ)) (hw53 : |w| ≤ 9007199254740992)
    (hsum : |n + w| ≤ 9007199254740992) :
    scoreF64 event (some (n : ℚ)) = some ((n : ℚ) + specWeight event) := by
  have hstep : ∀ j : ℚ, specWeight event = j →
      f64Add (some (n : ℚ)) (some j) = some ((n : ℚ) + specWeight event) := by
    intro j hj
    have hr := roundF64_intCast (n + w) hsum
    push_cast at hr
    unfold f64Add
    simp only
    rw [← hj, hw, hr]
  unfold scoreF64
  simp only [ViewAction, LikeAction, CommentAction, ShareAction, WatchTimeAction]
  by_cases h1 : event.Action = "view"
  · rw [if_pos h1]
    exact hstep 1 (by simp [specWeight, h1])
  by_cases h2 : event.Action = "like"
  · rw [if_neg h1, if_pos h2]
    exact hstep 5 (by simp [specWeight, h2])
  by_cases h3 : event.Action = "comment"
  · rw [if_neg h1, if_neg h2, if_pos h3]
    exact hstep 3 (by simp [specWeight, h3])
  by_cases h4 : event.Action = "share"
  · rw [if_neg h1, if_neg h2, if_neg h3, if_pos h4]
    exact hstep 4 (by simp [specWeight, h4])
  by_cases h5 : event.Action = "watch_time"
  · rw [if_neg h1, if_neg h2, if_neg h3, if_neg h4, if_pos h5]
    cases hv : event.Value with
    | float64 x =>
      have hx : specWeight event = x * (5 / 100) := by simp [specWeight, h5, hv]
      have hx20 : x = 20 * (w : ℚ) := by
        rw [hx] at hw
        linarith
      simp only [f64Const005_eq, f64Mul]
      rw [hx20, roundF64_mul_const005 w hw53]
      exact hstep (w : ℚ) hw
    | null => simp [specWeight, h5, hv]
    | string _ => simp [specWeight, h5, hv]
    | bool _ => simp [specWeight, h5, hv]
  · rw [if_neg h1, if_neg h2, if_neg h3, if_neg h4, if_neg h5]
    simp [specWeight, h1, h2, h3, h4, h5]

/-- On a whole score, events whose weights are whole numbers are accumulated without
rounding while the magnitude of the score plus the magnitudes of the weights is at
most 2 ^ 53. -/
theorem accumulateF64_exact (events : List VideoEvent) :
    ∀ n : Int,
      (∀ e ∈ events, ∃ w : Int, specWeight e = (w : ℚ)) →
      |(n : ℚ)| + (events.map (fun e => |specWeight e|)).sum ≤ 9007199254740992 →
      accumulateF64 (some (n : ℚ)) events = some ((n : ℚ) + (events.map specWeight).sum) := by
  induction events with
  | nil => intro n _ _; simp [accumulateF64]
  | cons e rest ih =>
    intro n hint hbound
    obtain ⟨w, hw⟩ := hint e (List.mem_cons_self _ _)
    have hrest0 : 0 ≤ (rest.map (fun e => |specWeight e|)).sum := by
      apply List.sum_nonneg
      intro x hx
      obtain ⟨e2, _, rfl⟩ := List.mem_map.mp hx
      exact abs_nonneg _
    simp only [List.map_cons, List.sum_cons, hw] at hbound ⊢
    have hn0 : (0 : ℚ) ≤ |(n : ℚ)| := abs_nonneg _
    have hw53 : |w| ≤ 9007199254740992 := by
      have : |(w : ℚ)| ≤ 9007199254740992 := by linarith
      exact_mod_cast this
    have hsum : |n + w| ≤ 9007199254740992 := by
      have h1 : |(n : ℚ) + (w : ℚ)| ≤ |(n : ℚ)| + |(w : ℚ)| := abs_add _ _
      have : |((n + w : Int) : ℚ)| ≤ 9007199254740992 := by
        push_cast
        linarith
      exact_mod_cast this
    have hstep := scoreF64_integral e w n hw hw53 hsum
    rw [hw] at hstep
    have hcast : (n : ℚ) + (w : ℚ) = ((n + w : Int) : ℚ) := by push_cast; rfl
    unfold accumulateF64
    rw [hstep, hcast, ih (n + w) (fun e2 he2 => hint e2 (List.mem_cons_of_mem _ he2))
      (by have h1 : |(n : ℚ) + (w : ℚ)| ≤ |(n : ℚ)| + |(w : ℚ)| := abs_add _ _
          push_cast
          linarith)]
    push_cast
    rw [add_assoc]

/-- One event of whole weight on a whole score, within 2 ^ 53: the float64 update of
the code is exact. -/
theorem scoreF64_exact_one (event : VideoEvent) (n : Int)
    (hint : ∃ w : Int, specWeight event = (w : ℚ))
    (hbound : |(n : ℚ)| + |specWeight event| ≤ 9007199254740992) :
    scoreF64 event (some (n : ℚ)) = some ((n : ℚ) + specWeight event) := by
  have h := accumulateF64_exact [event] n
    (by intro e he
        simp only [List.mem_singleton] at he
        rw [he]; exact hint)
    (by simpa using hbound)
  simpa [accumulateF64] using h

/-! ## Lemmas on the sort -/

theorem insertLeft_perm {α : Type} (less : α → α → Bool) (x : α) (l : List α) :
    (insertLeft less x l).Perm (x :: l) := by
  induction l with
  | nil => exact List.Perm.refl _
  | cons y ys ih =>
    unfold insertLeft
    split_ifs
    · exact (List.Perm.cons y ih).trans (List.Perm.swap x y ys)
    · exact List.Perm.refl _

theorem foldl_insertLeft_perm {α : Type} (less : α → α → Bool) (data : List α) :
    ∀ acc : List α,
      (data.foldl (fun sortedRev x => insertLeft less x sortedRev) acc).Perm (data ++ acc) := by
  induction data with
  | nil => intro acc; exact List.Perm.refl _
  | cons x xs ih =>
    intro acc
    simp only [List.foldl_cons, List.cons_append]
    refine (ih _).trans ?_
    refine (List.Perm.append_left xs (insertLeft_perm less x acc)).trans ?_
    exact List.perm_middle

theorem sortSlice_perm {α : Type} (less : α → α → Bool) (data : List α) :
    (sortSlice less data).Perm data := by
  unfold sortSlice
  refine (List.reverse_perm _).trans ?_
  simpa using foldl_insertLeft_perm less data []

theorem insertLeft_pairwise {α : Type} (less : α → α → Bool)
    (hasymm : ∀ a b, less a b = true → less b a = false)
    (htrans : ∀ a b c, less a b = false → less b c = false → less a c = false)
    (x : α) (l : List α) (hl : l.Pairwise (fun a b => less a b = false)) :
    (insertLeft less x l).Pairwise (fun a b => less a b = false) := by
  induction l with
  | nil => simp [insertLeft]
  | cons y ys ih =>
    rw [List.pairwise_cons] at hl
    unfold insertLeft
    split_ifs with hxy
    · rw [List.pairwise_cons]
      refine ⟨?_, ih hl.2⟩
      intro w hw
      rcases List.mem_cons.mp ((insertLeft_perm less x ys).mem_iff.mp hw) with h | h
      · rw [h]; exact hasymm x y hxy
      · exact hl.1 w h
    · have hxy1 : less x y = false := by simpa using hxy
      rw [List.pairwise_cons]
      refine ⟨?_, List.pairwise_cons.mpr hl⟩
      intro w hw
      rcases List.mem_cons.mp hw with h | h
      · rw [h]; exact hxy1
      · exact htrans x y w hxy1 (hl.1 w h)

theorem sortSlice_pairwise {α : Type} (less : α → α → Bool)
    (hasymm : ∀ a b, less a b = true → less b a = false)
    (htrans : ∀ a b c, less a b = false → less b c = false → less a c = false)
    (data : List α) :
    (sortSlice less data).Pairwise (fun a b => less b a = false) := by
  unfold sortSlice
  rw [List.pairwise_reverse]
  suffices h : ∀ acc : List α, acc.Pairwise (fun a b => less a b = false) →
      (data.foldl (fun sortedRev x => insertLeft less x sortedRev) acc).Pairwise
        (fun a b => less a b = false) from h [] List.Pairwise.nil
  induction data with
  | nil => intro acc h; exact h
  | cons x xs ih =>
    intro acc h
    exact ih _ (insertLeft_pairwise less hasymm htrans x acc h)

/-! ## Lemmas on the personalization -/

theorem categoryLoop_default (cats : List String) :
    ∀ score : ℚ, categoryLoop score ["default"] cats = score + 3 * (cats.count "default" : ℚ) := by
  induction cats with
  | nil => intro score; simp [categoryLoop]
  | cons c rest ih =>
    intro score
    by_cases hc : c = "default"
    · simp [categoryLoop, categoryInnerLoop, hc, ih]; ring
    · have hc1 : ¬ ("default" = c) := fun h => hc h.symm
      simp [categoryLoop, categoryInnerLoop, hc, hc1, ih, List.count_cons]

theorem getVideoCategoryMap_mem {videos : List Video} {v : Video} (hv : v ∈ videos) :
    RankingService.getVideoCategoryMap videos v.ID = some ["default"] := by
  unfold RankingService.getVideoCategoryMap
  rw [if_pos]
  simp only [List.any_eq_true, decide_eq_true_eq]
  exact ⟨v, hv, rfl⟩

theorem personalizeVideo_value (now : Time) (videos : List Video)
    (userInteractions : List UserVideoInteraction) (userPreferences : UserPreference)
    (v : Video) (hv : v ∈ videos) :
    personalizeVideo now userInteractions (RankingService.getVideoCategoryMap videos)
        userPreferences v
      = { v with Score :=
          (match interactionMap userInteractions v.ID with
            | some r =>
              (v.Score + (r.Views : ℚ) * (1 / 10) + (r.Likes : ℚ) * (5 / 10)
                + (r.Comments : ℚ) * (8 / 10) + (r.Shares : ℚ) * (12 / 10)
                + (r.WatchTime : ℚ) * (5 / 100))
                * (1 / (1 + hoursSince now r.LastViewed / 24))
                + 3 * (userPreferences.Categories.count "default" : ℚ)
            | none => v.Score + 3 * (userPreferences.Categories.count "default" : ℚ)) } := by
  unfold personalizeVideo
  cases hi : interactionMap userInteractions v.ID with
  | none =>
    simp only []
    by_cases hlen : userPreferences.Categories.length > 0
    · rw [if_pos hlen, getVideoCategoryMap_mem hv]
      simp only [categoryLoop_default]
    · rw [if_neg hlen]
      have : userPreferences.Categories = [] := by
        simpa using hlen
      simp [this]
  | some r =>
    simp only []
    by_cases hlen : userPreferences.Categories.length > 0
    · rw [if_pos hlen, getVideoCategoryMap_mem hv]
      simp only [categoryLoop_default]
      congr 1
      norm_num
    · rw [if_neg hlen]
      have : userPreferences.Categories = [] := by
        simpa using hlen
      simp [this]
      norm_num

theorem categoryInnerLoop_eq (score : ℚ) (userCategory : String) (videoCategories : List String) :
    categoryInnerLoop score userCategory videoCategories
      = if userCategory ∈ videoCategories then score + 3 else score := by
  induction videoCategories with
  | nil => simp [categoryInnerLoop]
  | cons c rest ih =>
    unfold categoryInnerLoop
    by_cases h : userCategory = c
    · simp [h]
    · simp [h, ih]

theorem categoryLoop_eq (videoCategories userCategories : List String) :
    ∀ score : ℚ, categoryLoop score videoCategories userCategories
      = score + 3 * (matchingEntries userCategories videoCategories : ℚ) := by
  induction userCategories with
  | nil => intro score; simp [categoryLoop, matchingEntries]
  | cons c rest ih =>
    intro score
    unfold categoryLoop
    rw [ih, categoryInnerLoop_eq]
    unfold matchingEntries
    by_cases h : c ∈ videoCategories
    · simp [List.filter, h]; ring
    · simp [List.filter, h]

theorem personalizeVideo_bonus (now : Time) (userInteractions : List UserVideoInteraction)
    (videoCategoryMap : UUID → Option (List String)) (userPreferences : UserPreference)
    (video : Video) (videoCategories : List String)
    (hcat : videoCategoryMap video.ID = some videoCategories) :
    (personalizeVideo now userInteractions videoCategoryMap userPreferences video).Score
      = (personalizeVideo now userInteractions videoCategoryMap
          { userPreferences with Categories := [] } video).Score
        + 3 * (matchingEntries userPreferences.Categories videoCategories : ℚ) := by
  unfold personalizeVideo
  cases hi : interactionMap userInteractions video.ID with
  | none =>
    simp only []
    by_cases hlen : userPreferences.Categories.length > 0
    · simp [hlen, hcat, categoryLoop_eq]
    · have : userPreferences.Categories = [] := by simpa using hlen
      simp [this, matchingEntries]
  | some r =>
    simp only []
    by_cases hlen : userPreferences.Categories.length > 0
    · simp [hlen, hcat, categoryLoop_eq]
    · have : userPreferences.Categories = [] := by simpa using hlen
      simp [this, matchingEntries]

theorem personalizeVideo_frame (now : Time) (userInteractions : List UserVideoInteraction)
    (videoCategoryMap : UUID → Option (List String)) (userPreferences : UserPreference)
    (video : Video) :
    personalizeVideo now userInteractions videoCategoryMap userPreferences video
      = { video with Score :=
          (personalizeVideo now userInteractions videoCategoryMap userPreferences video).Score } := by
  unfold personalizeVideo
  cases interactionMap userInteractions video.ID with
  | none =>
    simp only []
    split_ifs
    · split <;> rfl
    · rfl
  | some r =>
    simp only []
    split_ifs
    · split <;> rfl
    · rfl

/-- The map read at one key is the last record of the list with that video id. -/
theorem interactionMap_eq_specRecordFor (l : List UserVideoInteraction) (id : UUID) :
    interactionMap l id = specRecordFor l id := by
  unfold interactionMap specRecordFor
  induction l using List.reverseRecOn with
  | nil => rfl
  | append_singleton l x ih =>
    rw [List.foldl_append, List.filter_append]
    by_cases h : x.VideoID = id
    · simp [h]
    · simp [h, ih]

/-- Where the adjusted score of the specification has a value, the loop body computes
the candidate with that score. -/
theorem personalizeVideo_spec (now : Time) (videos : List Video)
    (userInteractions : List UserVideoInteraction) (userPreferences : UserPreference)
    (v w : Video) (hv : v ∈ videos)
    (hw : specPersonalized now userInteractions userPreferences v = some w) :
    personalizeVideo now userInteractions (RankingService.getVideoCategoryMap videos)
        userPreferences v = w := by
  rw [personalizeVideo_value now videos userInteractions userPreferences v hv]
  unfold specPersonalized specAdjustedScore at hw
  rw [← interactionMap_eq_specRecordFor] at hw
  cases hi : interactionMap userInteractions v.ID with
  | none =>
    rw [hi] at hw
    simp only [Option.map_some', Option.some.injEq] at hw
    rw [← hw]
  | some r =>
    rw [hi] at hw
    simp only at hw
    by_cases hden : 1 + hoursSince now r.LastViewed / 24 = 0
    · rw [if_pos hden] at hw
      cases hw
    · rw [if_neg hden] at hw
      simp only [Option.map_some', Option.some.injEq] at hw
      rw [← hw]

/-- The adjusted score of the specification has a value for every candidate when no
record of the user has a zero denominator in its decay. -/
theorem specPersonalized_defined (now : Time) (userInteractions : List UserVideoInteraction)
    (userPreferences : UserPreference)
    (hden : ∀ i ∈ userInteractions, 1 + hoursSince now i.LastViewed / 24 ≠ 0) (v : Video) :
    ∃ w, specPersonalized now userInteractions userPreferences v = some w := by
  unfold specPersonalized specAdjustedScore
  cases hr : specRecordFor userInteractions v.ID with
  | none => exact ⟨_, rfl⟩
  | some r =>
    have hmem : r ∈ userInteractions := by
      unfold specRecordFor at hr
      exact (List.mem_filter.mp (List.mem_of_getLast?_eq_some hr)).1
    simp only [if_neg (hden r hmem)]
    exact ⟨_, rfl⟩

theorem timeSince_of_range {now t : Time} (h1 : minInt64 ≤ now - t) (h2 : now - t ≤ maxInt64) :
    timeSince now t = now - t := by
  unfold timeSince
  rw [min_eq_right h2, max_eq_right h1]

theorem hoursSince_nonneg {now t : Time} (h : t ≤ now) : 0 ≤ hoursSince now t := by
  unfold hoursSince timeSince
  apply div_nonneg _ (by norm_num)
  have h0 : (0 : Int) ≤ max minInt64 (min maxInt64 (now - t)) := by
    apply le_max_of_le_right
    apply le_min
    · unfold maxInt64; omega
    · exact sub_nonneg.mpr h
  exact_mod_cast h0

/-! ## Lemmas on the writes of one event -/

theorem ProcessVideoEvent_run {env : Env} {s : State} {event : VideoEvent}
    {video video1 : Video}
    (hget : env.getVideoErr = false) (hupd : env.updateVideoErr = false)
    (hsel : selectVideo s.videos event.VideoID = some video)
    (happ : applyAction event video = .ok video1) :
    ProcessVideoEvent env s event
      = (.ok (), (PostgresStore.UpdateUserVideoInteraction env
          (RedisStore.UpdateVideoScore env (PostgresStore.UpdateVideo env s video1).2
            video1.ID video1.Score).2 (eventInteraction env event)).2) := by
  unfold ProcessVideoEvent RankingService.GetVideo PostgresStore.GetVideo
  simp only [hget, Bool.false_eq_true, if_false, hsel, happ]
  unfold RankingService.UpdateVideo
  have h1 : (PostgresStore.UpdateVideo env s video1).1 = .ok () := by
    unfold PostgresStore.UpdateVideo
    simp [hupd]
  cases hp : PostgresStore.UpdateVideo env s video1 with
  | mk r s1 =>
    rw [hp] at h1
    simp only at h1
    subst h1
    rfl

theorem ProcessVideoEvent_ok_env {env : Env} {s : State} {event : VideoEvent}
    (h : (ProcessVideoEvent env s event).1 = .ok ()) :
    env.getVideoErr = false ∧ env.updateVideoErr = false := by
  unfold ProcessVideoEvent RankingService.GetVideo PostgresStore.GetVideo at h
  cases hg : env.getVideoErr with
  | true => simp [hg] at h
  | false =>
    refine ⟨rfl, ?_⟩
    simp only [hg, Bool.false_eq_true, if_false] at h
    cases hsel : selectVideo s.videos event.VideoID with
    | none => simp [hsel] at h
    | some video =>
      simp only [hsel] at h
      cases happ : applyAction event video with
      | error e => simp [happ] at h
      | ok video1 =>
        simp only [happ] at h
        unfold RankingService.UpdateVideo PostgresStore.UpdateVideo at h
        cases hu : env.updateVideoErr with
        | true => simp [hu] at h
        | false => rfl

theorem zscore_zadd (z : List (UUID × ℚ)) (member : UUID) (score : ℚ) :
    zscore (zadd z member score) member = some score := by
  unfold zadd zscore
  by_cases h : (z.any (fun p => decide (p.1 = member))) = true
  · rw [if_pos h]
    induction z with
    | nil => simp at h
    | cons p rest ih =>
      by_cases hp : p.1 = member
      · simp [List.find?, hp]
      · have hrest : (rest.any (fun p => decide (p.1 = member))) = true := by
          simpa [hp] using h
        simpa [List.find?, hp] using ih hrest
  · rw [if_neg h]
    have hnone : z.find? (fun p => decide (p.1 = member)) = none := by
      rw [List.find?_eq_none]
      intro p hp hpm
      exact h (List.any_eq_true.mpr ⟨p, hp, hpm⟩)
    simp [List.find?_append, hnone]

theorem eventInteraction_fields (env : Env) (event : VideoEvent) :
    (eventInteraction env event).UserID = event.UserID
      ∧ (eventInteraction env event).VideoID = event.VideoID
      ∧ (eventInteraction env event).LastViewed = env.now
      ∧ (eventInteraction env event).Views = actionIncrement "view" event
      ∧ (eventInteraction env event).Likes = actionIncrement "like" event
      ∧ (eventInteraction env event).Comments = actionIncrement "comment" event
      ∧ (eventInteraction env event).Shares = actionIncrement "share" event
      ∧ (eventInteraction env event).WatchTime = watchIncrement event := by
  unfold eventInteraction actionIncrement watchIncrement
  simp only [ViewAction, LikeAction, CommentAction, ShareAction, WatchTimeAction]
  by_cases h1 : event.Action = "view"
  · simp [h1]
  by_cases h2 : event.Action = "like"
  · simp [h2]
  by_cases h3 : event.Action = "comment"
  · simp [h3]
  by_cases h4 : event.Action = "share"
  · simp [h4]
  by_cases h5 : event.Action = "watch_time"
  · cases hv : event.Value <;> simp [h5]
  · simp [h1, h2, h3, h4, h5]

/-! ## Lemmas on the leaderboard range -/

theorem zrevLess_asymm (a b : UUID × ℚ) (h : zrevLess a b = true) : zrevLess b a = false := by
  unfold zrevLess at h ⊢
  simp only [gt_iff_lt, decide_eq_true_eq, decide_eq_false_iff_not, not_or, not_lt, not_and] at h ⊢
  rcases h with h | ⟨h1, h2⟩
  · exact ⟨le_of_lt h, fun he => absurd he (ne_of_lt h)⟩
  · exact ⟨le_of_eq h1.symm, fun _ => le_of_lt h2⟩

theorem zrevLess_negtrans (a b c : UUID × ℚ) (hab : zrevLess a b = false)
    (hbc : zrevLess b c = false) : zrevLess a c = false := by
  unfold zrevLess at hab hbc ⊢
  simp only [gt_iff_lt, decide_eq_false_iff_not, not_or, not_lt, not_and] at hab hbc ⊢
  obtain ⟨h1, h2⟩ := hab
  obtain ⟨h3, h4⟩ := hbc
  refine ⟨le_trans h1 h3, fun he => ?_⟩
  have hab2 : a.2 = b.2 := le_antisymm h1 (by rw [he]; exact h3)
  have hbc2 : b.2 = c.2 := by rw [← hab2, he]
  exact le_trans (h2 hab2) (h4 hbc2)

/-- The reply of `ZREVRANGE` lists the members of a window of the set sorted by
descending score and then descending member. -/
theorem zrevrange_window (z : List (UUID × ℚ)) (start stop : Int) :
    ∃ w : List (UUID × ℚ), zrevrange z start stop = w.map (fun p => p.1)
      ∧ w.Sublist (sortSlice zrevLess z)
      ∧ (start = 0 → stop = 2 → w.length ≤ 3) := by
  unfold zrevrange
  simp only []
  split_ifs with h1 h2 h3 h4 h5 h6 h7
  all_goals first
    | exact ⟨[], rfl, List.nil_sublist _, fun _ _ => by simp⟩
    | refine ⟨_, rfl, (List.take_sublist _ _).trans (List.drop_sublist _ _), ?_⟩
      intro hs ht
      subst hs; subst ht
      refine le_trans (List.length_take_le _ _) ?_
      omega

theorem zrevrange_sorted_window {w : List (UUID × ℚ)} {z : List (UUID × ℚ)}
    (hw : w.Sublist (sortSlice zrevLess z)) :
    w.Pairwise (fun a b => a.2 ≥ b.2 ∧ (a.2 = b.2 → a.1 ≥ b.1)) ∧ ∀ p ∈ w, p ∈ z := by
  refine ⟨?_, fun p hp => (sortSlice_perm zrevLess z).mem_iff.mp (hw.subset hp)⟩
  have h := (sortSlice_pairwise zrevLess zrevLess_asymm zrevLess_negtrans z).sublist hw
  refine h.imp ?_
  intro a b hab
  unfold zrevLess at hab
  simp only [gt_iff_lt, decide_eq_false_iff_not, not_or, not_lt, not_and] at hab
  exact ⟨hab.1, fun he => hab.2 he.symm⟩

theorem zscore_of_mem {z : List (UUID × ℚ)} {p : UUID × ℚ} (hp : p ∈ z) :
    ∃ score, zscore z p.1 = some score := by
  unfold zscore
  cases hf : z.find? (fun q => decide (q.1 = p.1)) with
  | none =>
    rw [List.find?_eq_none] at hf
    exact absurd (by simp) (hf p hp)
  | some q => exact ⟨q.2, rfl⟩

/-- The list returned by `RankingService.GetTopVideos` has one slot for every member
of the Redis range. -/
theorem GetTopVideos_length (env : Env) (s : State) (start stop : Int) (l : List Video)
    (h : RankingService.GetTopVideos env s start stop = .ok l) :
    l.length = (zrevrange s.video_ranking start stop).length := by
  unfold RankingService.GetTopVideos RedisStore.GetTopVideos at h
  cases hz : env.zrevrangeErr with
  | true => simp [hz] at h
  | false =>
    simp only [hz, Bool.false_eq_true, if_false] at h
    cases h
    simp

/-- When no call fails and every ranked member has a row whose score is its
leaderboard score, the returned list holds these rows in rank order. -/
theorem GetTopVideos_rows (env : Env) (s : State) (start stop : Int)
    (h1 : env.zrevrangeErr = false) (h2 : env.zscoreErr = false) (h3 : env.getVideoErr = false)
    (w : List (UUID × ℚ)) (hw : zrevrange s.video_ranking start stop = w.map (fun p => p.1))
    (hmem : ∀ p ∈ w, p ∈ s.video_ranking)
    (hrows : ∀ p ∈ s.video_ranking, ∃ v, selectVideo s.videos p.1 = some v ∧ v.Score = p.2) :
    ∃ l, RankingService.GetTopVideos env s start stop = .ok l
      ∧ List.Forall₂ (fun p v => v.ID = p.1 ∧ v.Score = p.2) w l := by
  unfold RankingService.GetTopVideos RedisStore.GetTopVideos PostgresStore.GetVideo
  simp only [h1, h2, h3, Bool.false_eq_true, if_false, hw, List.map_map]
  refine ⟨_, rfl, ?_⟩
  rw [List.forall₂_map_right_iff]
  rw [List.forall₂_same]
  intro p hp
  obtain ⟨score, hscore⟩ := zscore_of_mem (hmem p hp)
  obtain ⟨v, hv, hvs⟩ := hrows p (hmem p hp)
  simp only [Function.comp_apply, hscore, hv]
  exact ⟨selectVideo_id hv, hvs⟩

theorem forall₂_pairwise_scores {w : List (UUID × ℚ)} {l : List Video}
    (h : List.Forall₂ (fun p v => v.ID = p.1 ∧ v.Score = p.2) w l)
    (hw : w.Pairwise (fun a b => a.2 ≥ b.2 ∧ (a.2 = b.2 → a.1 ≥ b.1))) :
    l.Pairwise (fun a b => a.Score ≥ b.Score ∧ (a.Score = b.Score → a.ID ≥ b.ID)) := by
  induction h with
  | nil => exact List.Pairwise.nil
  | @cons p v w1 l1 hpv hrest ih =>
    rw [List.pairwise_cons] at hw ⊢
    refine ⟨?_, ih hw.2⟩
    intro v2 hv2
    obtain ⟨p2, hp2, hpv2⟩ : ∃ p2, p2 ∈ w1 ∧ (v2.ID = p2.1 ∧ v2.Score = p2.2) := by
      clear ih hw
      induction hrest with
      | nil => simp at hv2
      | @cons q u w2 l2 hqu _ ih2 =>
        rcases List.mem_cons.mp hv2 with h | h
        · exact ⟨q, List.mem_cons_self _ _, by rw [h]; exact hqu⟩
        · obtain ⟨p2, hp2, hh⟩ := ih2 h
          exact ⟨p2, List.mem_cons_of_mem _ hp2, hh⟩
    have := hw.1 p2 hp2
    rw [hpv.1, hpv.2, hpv2.1, hpv2.2]
    exact this

/-! ## Lemmas on the preferences -/

theorem cacheLookup_filter_ne (cache : List CacheEntry) (userID : String) (t : Time) :
    cacheLookup (cache.filter (fun c => decide (c.userID ≠ userID))) userID t = none := by
  unfold cacheLookup
  rw [Option.map_eq_none', List.find?_eq_none]
  intro c hc
  have := (List.mem_filter.mp hc).2
  simp only [ne_eq, decide_not, Bool.not_eq_true', decide_eq_false_iff_not] at this
  simp [this]

theorem cacheLookup_set (env : Env) (s : State) (userID : String) (prefs : UserPreference)
    (expiration : Int) (hset : env.cacheSetErr = false) (t : Time) :
    cacheLookup (RedisStore.CacheUserPreferences env s userID prefs expiration).2.preference_cache
        userID t
      = if t < env.now + expiration then some prefs else none := by
  unfold RedisStore.CacheUserPreferences
  simp only [hset, Bool.false_eq_true, if_false]
  by_cases ht : t < env.now + expiration
  · rw [if_pos ht]
    unfold cacheLookup
    simp [List.find?, ht]
  · rw [if_neg ht]
    have h := cacheLookup_filter_ne s.preference_cache userID t
    unfold cacheLookup at h ⊢
    simp only [List.find?, ht, and_false, decide_False]
    exact h

theorem selectUserPreferences_upsert (env : Env) (s : State) (preferences : UserPreference)
    (hupd : env.updatePreferencesErr = false) :
    ∃ row, selectUserPreferences
        (PostgresStore.UpdateUserPreferences env s preferences).2.user_preferences
        preferences.UserID = some row
      ∧ row.UserID = preferences.UserID ∧ row.Categories = preferences.Categories
      ∧ row.UpdatedAt = preferences.UpdatedAt := by
  unfold PostgresStore.UpdateUserPreferences selectUserPreferences
  simp only [hupd, Bool.false_eq_true, if_false]
  by_cases h : (s.user_preferences.any (fun r => decide (r.UserID = preferences.UserID))) = true
  · rw [if_pos h]
    simp only []
    generalize s.user_preferences = rows at h
    induction rows with
    | nil => simp at h
    | cons r rest ih =>
      by_cases hr : r.UserID = preferences.UserID
      · exact ⟨⟨r.UserID, preferences.Categories, preferences.UpdatedAt⟩,
          by simp [List.find?, hr], hr, rfl, rfl⟩
      · have hrest : (rest.any (fun r => decide (r.UserID = preferences.UserID))) = true := by
          simpa [hr] using h
        obtain ⟨row, h1, h2⟩ := ih hrest
        exact ⟨row, by simpa [List.find?, hr] using h1, h2⟩
  · rw [if_neg h]
    have hnone : s.user_preferences.find?
        (fun r => decide (r.UserID = preferences.UserID)) = none := by
      rw [List.find?_eq_none]
      intro r hr hrm
      exact h (List.any_eq_true.mpr ⟨r, hr, hrm⟩)
    exact ⟨preferences, by simp [List.find?_append, hnone], rfl, rfl, rfl⟩

theorem resolvePreferences_miss (env : Env) (s : State) (userID : String)
    (hmiss : env.cacheGetErr = true ∨ cacheLookup s.preference_cache userID env.now = none) :
    GetTopVideosPerUser.resolvePreferences env s userID
      = ((match PostgresStore.GetUserPreferences env s userID with
          | .error _ => { UserID := userID, Categories := [], UpdatedAt := 0 }
          | .ok prefs => prefs),
        (RedisStore.CacheUserPreferences env s userID
          (match PostgresStore.GetUserPreferences env s userID with
            | .error _ => { UserID := userID, Categories := [], UpdatedAt := 0 }
            | .ok prefs => prefs) timeHour).2,
        [.GetCachedUserPreferences userID, .GetUserPreferences userID,
          .CacheUserPreferences userID
            (match PostgresStore.GetUserPreferences env s userID with
              | .error _ => { UserID := userID, Categories := [], UpdatedAt := 0 }
              | .ok prefs => prefs) timeHour]) := by
  unfold GetTopVideosPerUser.resolvePreferences RedisStore.GetCachedUserPreferences
  rcases hmiss with h | h
  · simp [h]
  · cases hg : env.cacheGetErr <;> simp [h]

/-- A search finds the only element of the list that satisfies the predicate. -/
theorem find?_of_unique {α : Type} (p : α → Bool) (l : List α) (x : α) (hx : x ∈ l)
    (hp : p x = true) (huniq : ∀ y ∈ l, p y = true → y = x) : l.find? p = some x := by
  cases h : l.find? p with
  | none =>
    have hnot := List.find?_eq_none.mp h x hx
    exact absurd hp hnot
  | some y =>
    rw [huniq y (List.mem_of_find?_eq_some h) (List.find?_some h)]

theorem cacheLookup_of_live (cache : List CacheEntry) (userID : String) (now : Time)
    (entry : CacheEntry) (hmem : entry ∈ cache) (hid : entry.userID = userID)
    (hlive : now < entry.expiresAt)
    (huniq : ∀ c ∈ cache, c.userID = userID → now < c.expiresAt → c = entry) :
    cacheLookup cache userID now = some entry.preferences := by
  unfold cacheLookup
  rw [find?_of_unique _ cache entry hmem (by simp [hid, hlive])
    (by intro c hc hp
        simp only [decide_eq_true_eq] at hp
        exact huniq c hc hp.1 hp.2)]
  rfl

theorem cacheLookup_of_expired (cache : List CacheEntry) (userID : String) (now : Time)
    (h : ∀ c ∈ cache, c.userID = userID → c.expiresAt ≤ now) :
    cacheLookup cache userID now = none := by
  unfold cacheLookup
  rw [List.find?_eq_none.mpr, Option.map_none']
  intro c hc hp
  simp only [decide_eq_true_eq] at hp
  exact absurd hp.2 (not_lt.mpr (h c hc hp.1))

theorem selectUserPreferences_of_row (rows : List UserPreference) (userID : String)
    (row : UserPreference) (hmem : row ∈ rows) (hid : row.UserID = userID)
    (huniq : ∀ r ∈ rows, r.UserID = userID → r = row) :
    selectUserPreferences rows userID = some row := by
  unfold selectUserPreferences
  exact find?_of_unique _ rows row hmem (by simp [hid])
    (by intro r hr hp
        simp only [decide_eq_true_eq] at hp
        exact huniq r hr hp)

theorem selectUserPreferences_of_absent (rows : List UserPreference) (userID : String)
    (h : ∀ r ∈ rows, r.UserID ≠ userID) : selectUserPreferences rows userID = none := by
  unfold selectUserPreferences
  rw [List.find?_eq_none]
  intro r hr hp
  simp only [decide_eq_true_eq] at hp
  exact h r hr hp

/-! ## Event processor: score and counters (C1 to C5) -/

/-- Counterexample to C1 as stated: on the item whose score is 2 ^ 53 two view events
are applied successfully, and the float64 score after them is still 2 ^ 53, not
2 ^ 53 + 2. -/
theorem C1_float64_score_is_not_exact_sum :
    (∀ r ∈ (ConsumeVideoEvents exHugeState [(exEnv, exView), (exEnv, exView)]).1, r = .ok ())
      ∧ selectVideo exHugeState.videos 7 = some exHugeVideo
      ∧ accumulateF64 (some exHugeVideo.Score) [exView, exView] = some 9007199254740992
      ∧ (9007199254740992 : ℚ)
          ≠ exHugeVideo.Score + ([exView, exView].map specWeight).sum := by
  refine ⟨?_, rfl, accumulateF64_two_views, ?_⟩
  · intro r hr
    simp only [ConsumeVideoEvents, List.mem_cons, List.mem_singleton, List.not_mem_nil,
      or_false] at hr
    rcases hr with h | h <;> rw [h] <;> rfl
  · simp [exHugeVideo, specWeight, exView]

/-- C1 (amended): for every item whose score is a whole number and every finite sequence
of events on that item, each applied successfully by `ProcessVideoEvent` one after
another, whose weights (view 1, like 5, comment 3, share 4, watch_time value × 0.05) are
whole numbers, such that the magnitude of the initial score plus the magnitudes of the
weights is at most 2 ^ 53, the final persisted score is the initial score plus the sum
of the per-event weights, and the float64 operations of the code give this value
without rounding. -/
theorem C1_final_score_is_sum_of_weights (s : State) (id : UUID) (v : Video) (n : Int)
    (events : List (Env × VideoEvent))
    (hv : selectVideo s.videos id = some v)
    (hid : ∀ p ∈ events, p.2.VideoID = id)
    (hok : ∀ r ∈ (ConsumeVideoEvents s events).1, r = .ok ())
    (hint : ∀ p ∈ events, ∃ w : Int, specWeight p.2 = (w : ℚ))
    (hn : v.Score = (n : ℚ))
    (hbound : |v.Score| + (events.map (fun p => |specWeight p.2|)).sum
      ≤ 9007199254740992) :
    ∃ v1, selectVideo (ConsumeVideoEvents s events).2.videos id = some v1
      ∧ v1.Score = v.Score + (events.map (fun p => specWeight p.2)).sum
      ∧ accumulateF64 (some v.Score) (events.map (fun p => p.2)) = some v1.Score := by
  obtain ⟨v1, h1, h2, _⟩ := ConsumeVideoEvents_effect id events s v hv hid hok
  refine ⟨v1, h1, h2, ?_⟩
  have hmap : (events.map (fun p => p.2)).map specWeight
      = events.map (fun p => specWeight p.2) := by
    rw [List.map_map]
    rfl
  have hmap2 : (events.map (fun p => p.2)).map (fun e => |specWeight e|)
      = events.map (fun p => |specWeight p.2|) := by
    rw [List.map_map]
    rfl
  have hexact := accumulateF64_exact (events.map (fun p => p.2)) n
    (by intro e he
        obtain ⟨p, hp, rfl⟩ := List.mem_map.mp he
        exact hint p hp)
    (by rw [hmap2, ← hn]; exact hbound)
  rw [h2, hn, hexact, hmap]

/-- Witness of C1 (amended): a like followed by a watch_time event of value 40 on the
example item, whose score is 10. -/
theorem C1_final_score_witness :
    ∃ v1, selectVideo
        (ConsumeVideoEvents exState [(exEnv, exLike), (exEnv, exWatch 40)]).2.videos 7
          = some v1
      ∧ v1.Score = exVideo.Score
          + ([(exEnv, exLike), (exEnv, exWatch 40)].map (fun p => specWeight p.2)).sum
      ∧ accumulateF64 (some exVideo.Score)
          ([(exEnv, exLike), (exEnv, exWatch 40)].map (fun p => p.2)) = some v1.Score :=
  C1_final_score_is_sum_of_weights exState 7 exVideo 10
    [(exEnv, exLike), (exEnv, exWatch 40)] rfl
    (by intro p hp
        simp only [List.mem_cons, List.mem_singleton, List.not_mem_nil, or_false] at hp
        rcases hp with h | h <;> rw [h] <;> rfl)
    (by intro r hr
        simp only [ConsumeVideoEvents, List.mem_cons, List.mem_singleton, List.not_mem_nil,
          or_false] at hr
        rcases hr with h | h <;> rw [h] <;> rfl)
    (by intro p hp
        simp only [List.mem_cons, List.mem_singleton, List.not_mem_nil, or_false] at hp
        rcases hp with h | h <;> rw [h]
        · exact ⟨5, by simp [specWeight, exLike]⟩
        · exact ⟨2, by simp [specWeight, exWatch]; norm_num⟩)
    (by simp [exVideo])
    (by simp [exVideo, specWeight, exLike, exWatch]
        norm_num)

/-- Counterexample to C2 as stated: a successfully applied watch_time event of value
-20 lowers the score of the example item from 10 to 9. -/
theorem C2_negative_watch_time_lowers_score :
    (ProcessVideoEvent exEnv exState (exWatch (-20))).1 = .ok ()
      ∧ selectVideo exState.videos 7 = some exVideo
      ∧ selectVideo (ProcessVideoEvent exEnv exState (exWatch (-20))).2.videos 7
          = some { exVideo with Score := 9, WatchTime := -20, UpdatedAt := 100 }
      ∧ (9 : ℚ) < exVideo.Score := by
  refine ⟨rfl, rfl, ?_, by norm_num [exVideo]⟩
  have h : goInt (-20) = -20 := by
    have h20 := goInt_intCast (-20) (by unfold minInt64; omega) (by unfold maxInt64; omega)
    push_cast at h20
    exact h20
  have hw : wrapInt64 (-20) = -20 := by decide
  simp [ProcessVideoEvent, RankingService.GetVideo, PostgresStore.GetVideo, exEnv, exState,
    exWatch, selectVideo, applyAction, exVideo, RankingService.UpdateVideo,
    PostgresStore.UpdateVideo, RankingService.UpdateUserVideoInteraction,
    PostgresStore.UpdateUserVideoInteraction, RankingService.updateVideoInRedis,
    RedisStore.UpdateVideoScore, ViewAction, LikeAction, CommentAction, ShareAction,
    WatchTimeAction, h, hw]
  norm_num

/-- C2 (amended): for every item and every successfully applied event whose action is
not watch_time, or whose action is watch_time with a value that is not negative, the
persisted score after the event is at least the score before it. -/
theorem C2_score_not_decreased (env : Env) (s : State) (event : VideoEvent) (v : Video)
    (hok : (ProcessVideoEvent env s event).1 = .ok ())
    (hv : selectVideo s.videos event.VideoID = some v)
    (hval : ∀ x, event.Action = "watch_time" → event.Value = .float64 x → 0 ≤ x) :
    ∃ v1, selectVideo (ProcessVideoEvent env s event).2.videos event.VideoID = some v1
      ∧ v.Score ≤ v1.Score := by
  obtain ⟨video, video1, hsel, happ, hafter⟩ := ProcessVideoEvent_ok hok
  rw [hv] at hsel
  cases hsel
  refine ⟨_, hafter, ?_⟩
  have hs := (applyAction_effect happ).1
  have hw := specWeight_nonneg event hval
  show v.Score ≤ video1.Score
  rw [hs]
  linarith

/-- Witness of C2 (amended): a watch_time event of value 3/2 on the example item. -/
theorem C2_score_not_decreased_witness :
    ∃ v1, selectVideo (ProcessVideoEvent exEnv exState (exWatch (3 / 2))).2.videos
        (exWatch (3 / 2)).VideoID = some v1
      ∧ exVideo.Score ≤ v1.Score :=
  C2_score_not_decreased exEnv exState (exWatch (3 / 2)) exVideo rfl rfl
    (by intro x _ hx
        simp only [exWatch, EventValue.float64.injEq] at hx
        rw [← hx]
        norm_num)

/-- Counterexample to C3 as stated: after one successful watch_time event of value 3/2
on the example item the counter watchTime is 1, not 0 + 3/2; after one successful
watch_time event of value 10 ^ 19, which no 64-bit integer holds, the counter is the
least 64-bit integer; and after one successful view event on the item whose views
counter is the greatest 64-bit integer, the counter is the least 64-bit integer. -/
theorem C3_fractional_watch_time_truncated :
    (∀ r ∈ (ConsumeVideoEvents exState [(exEnv, exWatch (3 / 2))]).1, r = .ok ())
      ∧ (selectVideo (ConsumeVideoEvents exState [(exEnv, exWatch (3 / 2))]).2.videos 7).map
          (fun v1 => v1.WatchTime) = some 1
      ∧ ((1 : Int) : ℚ) ≠ (exVideo.WatchTime : ℚ)
          + ([(exEnv, exWatch (3 / 2))].map (fun p => specWatchValue p.2)).sum
      ∧ (∀ r ∈ (ConsumeVideoEvents exState [(exEnv, exWatch 10000000000000000000)]).1,
          r = .ok ())
      ∧ (selectVideo (ConsumeVideoEvents exState
            [(exEnv, exWatch 10000000000000000000)]).2.videos 7).map
          (fun v1 => v1.WatchTime) = some (-9223372036854775808)
      ∧ ((-9223372036854775808 : Int) : ℚ) ≠ (exVideo.WatchTime : ℚ)
          + ([(exEnv, exWatch 10000000000000000000)].map (fun p => specWatchValue p.2)).sum
      ∧ (∀ r ∈ (ConsumeVideoEvents exFullState [(exEnv, exView)]).1, r = .ok ())
      ∧ (selectVideo (ConsumeVideoEvents exFullState [(exEnv, exView)]).2.videos 7).map
          (fun v1 => v1.Views) = some (-9223372036854775808)
      ∧ (-9223372036854775808 : Int)
          ≠ exFullVideo.Views + countAction "view" [(exEnv, exView)] := by
  have hview : (∀ r ∈ (ConsumeVideoEvents exFullState [(exEnv, exView)]).1, r = .ok ())
      ∧ (selectVideo (ConsumeVideoEvents exFullState [(exEnv, exView)]).2.videos 7).map
          (fun v1 => v1.Views) = some (-9223372036854775808) := by
    have hok : ∀ r ∈ (ConsumeVideoEvents exFullState [(exEnv, exView)]).1, r = .ok () := by
      intro r hr
      simp only [ConsumeVideoEvents, List.mem_cons, List.mem_singleton, List.not_mem_nil,
        or_false] at hr
      rw [hr]; rfl
    obtain ⟨v1, h0, _, h1, _⟩ :=
      ConsumeVideoEvents_effect 7 [(exEnv, exView)] exFullState exFullVideo rfl
        (by intro p hp
            simp only [List.mem_singleton] at hp
            rw [hp]; rfl)
        hok
    refine ⟨hok, ?_⟩
    rw [h0, Option.map_some', h1]
    simp [countAction, exView, exFullVideo]
    decide
  have hrun : ∀ x : ℚ,
      (∀ r ∈ (ConsumeVideoEvents exState [(exEnv, exWatch x)]).1, r = .ok ())
        ∧ (selectVideo (ConsumeVideoEvents exState [(exEnv, exWatch x)]).2.videos 7).map
            (fun v1 => v1.WatchTime) = some (wrapInt64 (goInt x)) := by
    intro x
    have hok : ∀ r ∈ (ConsumeVideoEvents exState [(exEnv, exWatch x)]).1, r = .ok () := by
      intro r hr
      simp only [ConsumeVideoEvents, List.mem_cons, List.mem_singleton, List.not_mem_nil,
        or_false] at hr
      rw [hr]; rfl
    obtain ⟨v1, h0, _, _, _, _, _, h5⟩ :=
      ConsumeVideoEvents_effect 7 [(exEnv, exWatch x)] exState exVideo rfl
        (by intro p hp
            simp only [List.mem_singleton] at hp
            rw [hp]; rfl)
        hok
    refine ⟨hok, ?_⟩
    rw [h0, Option.map_some', h5]
    simp [countAction, exWatch, watchIncrement, exVideo]
  refine ⟨(hrun _).1, ?_, ?_, (hrun _).1, ?_, ?_, hview.1, hview.2, ?_⟩
  · rw [(hrun _).2, goInt_three_halves]
    rfl
  · simp [specWatchValue, exWatch, exVideo]
    norm_num
  · rw [(hrun _).2, goInt_ten_pow_19]
    rfl
  · simp [specWatchValue, exWatch, exVideo]
    norm_num
  · simp [countAction, exView, exFullVideo]

/-- C3 (amended): for every item and every finite sequence of events on that item, each
applied successfully, in which every watch_time value is below 2 ^ 63 in magnitude and
every counter total stays within the 64-bit integers: views, likes, comments and shares
are each increased by the number of events of that action, watchTime is increased by
the sum of the values of the watch_time events each truncated toward zero to an integer
(the sum of the values when they are whole numbers), and watchTime is unchanged when
the sequence has no watch_time event. -/
theorem C3_final_counters (s : State) (id : UUID) (v : Video)
    (events : List (Env × VideoEvent))
    (hv : selectVideo s.videos id = some v)
    (hid : ∀ p ∈ events, p.2.VideoID = id)
    (hok : ∀ r ∈ (ConsumeVideoEvents s events).1, r = .ok ())
    (hrange : ∀ p ∈ events, ∀ x, p.2.Action = "watch_time" → p.2.Value = .float64 x →
      |x| < 9223372036854775808)
    (hfit : ∀ total ∈ [v.Views + countAction "view" events,
        v.Likes + countAction "like" events, v.Comments + countAction "comment" events,
        v.Shares + countAction "share" events,
        v.WatchTime + (events.map (fun p => specTruncatedWatchValue p.2)).sum],
      minInt64 ≤ total ∧ total ≤ maxInt64) :
    ∃ v1, selectVideo (ConsumeVideoEvents s events).2.videos id = some v1
      ∧ v1.Views = v.Views + countAction "view" events
      ∧ v1.Likes = v.Likes + countAction "like" events
      ∧ v1.Comments = v.Comments + countAction "comment" events
      ∧ v1.Shares = v.Shares + countAction "share" events
      ∧ v1.WatchTime
          = v.WatchTime + (events.map (fun p => specTruncatedWatchValue p.2)).sum
      ∧ ((∀ p ∈ events, ∀ x, p.2.Value = .float64 x → ∃ n : Int, x = (n : ℚ)) →
          (v1.WatchTime : ℚ)
            = (v.WatchTime : ℚ) + (events.map (fun p => specWatchValue p.2)).sum)
      ∧ (countAction "watch_time" events = 0 → v1.WatchTime = v.WatchTime) := by
  obtain ⟨v1, h0, _, h1, h2, h3, h4, h5⟩ := ConsumeVideoEvents_effect id events s v hv hid hok
  have hsum := watchIncrement_sum_of_range events hrange
  have hw : v1.WatchTime
      = v.WatchTime + (events.map (fun p => specTruncatedWatchValue p.2)).sum := by
    rw [h5, hsum]
    split_ifs with hc
    · rw [← hsum, watchIncrement_sum_zero events hc, add_zero]
    · exact wrapInt64_of_range (hfit _ (by simp)).1 (hfit _ (by simp)).2
  refine ⟨v1, h0, ?_, ?_, ?_, ?_, hw, ?_, ?_⟩
  · rw [h1]; exact counter_of_range _ _ (hfit _ (by simp))
  · rw [h2]; exact counter_of_range _ _ (hfit _ (by simp))
  · rw [h3]; exact counter_of_range _ _ (hfit _ (by simp))
  · rw [h4]; exact counter_of_range _ _ (hfit _ (by simp))
  · intro hint
    rw [hw, Int.cast_add, specTruncatedWatchValue_integral events hint]
  · intro hc
    rw [hw, ← hsum, watchIncrement_sum_zero events hc, add_zero]

/-- Witness of C3 (amended): a like followed by a watch_time event of value 3/2 on
the example item. -/
theorem C3_final_counters_witness :
    ∃ v1, selectVideo
        (ConsumeVideoEvents exState [(exEnv, exLike), (exEnv, exWatch (3 / 2))]).2.videos 7
          = some v1
      ∧ v1.Views = exVideo.Views
          + countAction "view" [(exEnv, exLike), (exEnv, exWatch (3 / 2))]
      ∧ v1.Likes = exVideo.Likes
          + countAction "like" [(exEnv, exLike), (exEnv, exWatch (3 / 2))]
      ∧ v1.Comments = exVideo.Comments
          + countAction "comment" [(exEnv, exLike), (exEnv, exWatch (3 / 2))]
      ∧ v1.Shares = exVideo.Shares
          + countAction "share" [(exEnv, exLike), (exEnv, exWatch (3 / 2))]
      ∧ v1.WatchTime = exVideo.WatchTime
          + ([(exEnv, exLike), (exEnv, exWatch (3 / 2))].map
              (fun p => specTruncatedWatchValue p.2)).sum
      ∧ ((∀ p ∈ [(exEnv, exLike), (exEnv, exWatch (3 / 2))],
            ∀ x, p.2.Value = .float64 x → ∃ n : Int, x = (n : ℚ)) →
          (v1.WatchTime : ℚ) = (exVideo.WatchTime : ℚ)
            + ([(exEnv, exLike), (exEnv, exWatch (3 / 2))].map
                (fun p => specWatchValue p.2)).sum)
      ∧ (countAction "watch_time" [(exEnv, exLike), (exEnv, exWatch (3 / 2))] = 0
          → v1.WatchTime = exVideo.WatchTime) :=
  C3_final_counters exState 7 exVideo
    [(exEnv, exLike), (exEnv, exWatch (3 / 2))] rfl
    (by intro p hp
        simp only [List.mem_cons, List.mem_singleton, List.not_mem_nil, or_false] at hp
        rcases hp with h | h <;> rw [h] <;> rfl)
    (by intro r hr
        simp only [ConsumeVideoEvents, List.mem_cons, List.mem_singleton, List.not_mem_nil,
          or_false] at hr
        rcases hr with h | h <;> rw [h] <;> rfl)
    (by intro p hp x _ hx
        simp only [List.mem_cons, List.mem_singleton, List.not_mem_nil, or_false] at hp
        rcases hp with h | h
        · rw [h] at hx
          exact absurd hx (by simp [exLike])
        · rw [h] at hx
          simp only [exWatch, EventValue.float64.injEq] at hx
          rw [← hx, abs_lt]
          constructor <;> norm_num)
    (by intro total ht
        have h32 : specTruncate (3 / 2) = 1 :=
          (truncInt_eq_specTruncate _).symm.trans truncInt_three_halves
        simp [countAction, exLike, exWatch, exVideo, specTruncatedWatchValue, h32] at ht
        unfold minInt64 maxInt64
        omega)

/-- C4: for every watch_time event whose value is missing or is not a number,
`ProcessVideoEvent` returns an error and leaves every store (the video rows, the
leaderboard and the interaction records) unchanged. -/
theorem C4_invalid_watch_time_rejected (env : Env) (s : State) (event : VideoEvent)
    (hact : event.Action = "watch_time")
    (hval : ∀ x, event.Value ≠ .float64 x) :
    (∃ e, (ProcessVideoEvent env s event).1 = .error e)
      ∧ (ProcessVideoEvent env s event).2 = s := by
  have happ : ∀ video, applyAction event video = .error .invalidWatchTime := by
    intro video
    unfold applyAction
    simp only [ViewAction, LikeAction, CommentAction, ShareAction, WatchTimeAction, hact]
    cases hv : event.Value with
    | float64 x => exact absurd hv (hval x)
    | null => simp
    | string _ => simp
    | bool _ => simp
  unfold ProcessVideoEvent
  cases hg : RankingService.GetVideo env s event.VideoID with
  | error e => exact ⟨⟨e, rfl⟩, rfl⟩
  | ok video => simp [happ]

/-- Witness of C4: a watch_time event with no value on the example item. -/
theorem C4_invalid_watch_time_witness :
    (∃ e, (ProcessVideoEvent exEnv exState
        { VideoID := 7, Action := "watch_time", UserID := "u", Value := .null }).1 = .error e)
      ∧ (ProcessVideoEvent exEnv exState
        { VideoID := 7, Action := "watch_time", UserID := "u", Value := .null }).2 = exState :=
  C4_invalid_watch_time_rejected exEnv exState
    { VideoID := 7, Action := "watch_time", UserID := "u", Value := .null } rfl
    (by intro x h; cases h)

/-- C5: for every event whose action is not one of view, like, comment, share,
watch_time, `ProcessVideoEvent` returns an error and leaves every store (the video
rows, the leaderboard and the interaction records) unchanged. -/
theorem C5_unknown_action_rejected (env : Env) (s : State) (event : VideoEvent)
    (hact : event.Action ≠ "view" ∧ event.Action ≠ "like" ∧ event.Action ≠ "comment"
      ∧ event.Action ≠ "share" ∧ event.Action ≠ "watch_time") :
    (∃ e, (ProcessVideoEvent env s event).1 = .error e)
      ∧ (ProcessVideoEvent env s event).2 = s := by
  obtain ⟨h1, h2, h3, h4, h5⟩ := hact
  have happ : ∀ video, applyAction event video = .error .unknownAction := by
    intro video
    unfold applyAction
    simp only [ViewAction, LikeAction, CommentAction, ShareAction, WatchTimeAction, h1, h2, h3,
      h4, h5, if_false]
  unfold ProcessVideoEvent
  cases hg : RankingService.GetVideo env s event.VideoID with
  | error e => exact ⟨⟨e, rfl⟩, rfl⟩
  | ok video => simp [happ]

/-- Witness of C5: an event of action "dislike" on the example item. -/
theorem C5_unknown_action_witness :
    (∃ e, (ProcessVideoEvent exEnv exState
        { VideoID := 7, Action := "dislike", UserID := "u", Value := .null }).1 = .error e)
      ∧ (ProcessVideoEvent exEnv exState
        { VideoID := 7, Action := "dislike", UserID := "u", Value := .null }).2 = exState :=
  C5_unknown_action_rejected exEnv exState
    { VideoID := 7, Action := "dislike", UserID := "u", Value := .null }
    (by decide)

/-! ## Personalization (C6 to C8) -/

/-- C6: for every candidate list, `personalizeVideoRanking` returns, up to order, the
candidates with each score replaced by the adjusted score computed in the fixed order
of the specification: with an interaction record for the item, (score + views × 0.1
+ likes × 0.5 + comments × 0.8 + shares × 1.2 + watchTime × 0.05) × 1 / (1 + hours / 24),
without one the score itself, and the category bonus added afterwards. The formula has
a value for every candidate unless a record makes the denominator 1 + hours / 24 zero.
The hours are the nanoseconds from the last view to now divided by those of one hour
whenever this difference is a 64-bit duration, and the factor is positive and at most 1
for a record last viewed in the past. For the example of the specification (base 10,
views 2, likes 1, watchTime 60, last viewed 2 hours ago, matching category) the result
is 13.7 × 12/13 + 3, which lies between 15.646 and 15.647; with the same record filed
under another item the result is 10 + 3. -/
theorem C6_adjusted_score_in_fixed_order (now : Time) (videos : List Video)
    (userInteractions : List UserVideoInteraction) (userPreferences : UserPreference) :
    (∀ l, List.Forall₂
          (fun v w => specPersonalized now userInteractions userPreferences v = some w)
          videos l →
        (RankingService.personalizeVideoRanking now videos userInteractions
          userPreferences).Perm l)
      ∧ ((∀ i ∈ userInteractions, 1 + hoursSince now i.LastViewed / 24 ≠ 0) →
          ∃ l, List.Forall₂
            (fun v w => specPersonalized now userInteractions userPreferences v = some w)
            videos l)
      ∧ (∀ t : Time, minInt64 ≤ now - t → now - t ≤ maxInt64 →
          hoursSince now t = ((now - t : Int) : ℚ) / 3600000000000)
      ∧ (∀ t : Time, t ≤ now →
          0 < 1 / (1 + hoursSince now t / 24) ∧ 1 / (1 + hoursSince now t / 24) ≤ 1)
      ∧ RankingService.personalizeVideoRanking 7200000000000 [exVideo] [exInteraction]
          (exPreference ["default"]) = [{ exVideo with Score := 137 / 10 * (12 / 13) + 3 }]
      ∧ (15646 / 1000 : ℚ) ≤ 137 / 10 * (12 / 13) + 3
      ∧ (137 / 10 * (12 / 13) + 3 : ℚ) < 15647 / 1000
      ∧ RankingService.personalizeVideoRanking 7200000000000 [exVideo]
          [{ exInteraction with VideoID := 8 }] (exPreference ["default"])
          = [{ exVideo with Score := 10 + 3 }] := by
  have hts : timeSince 7200000000000 0 = 7200000000000 :=
    timeSince_of_range (by decide) (by decide)
  refine ⟨?_, ?_, ?_, ?_, ?_, by norm_num, by norm_num, ?_⟩
  · intro l hl
    have hmap : ∀ (vs : List Video) (l : List Video), (∀ v ∈ vs, v ∈ videos) →
        List.Forall₂
          (fun v w => specPersonalized now userInteractions userPreferences v = some w)
          vs l →
        vs.map (personalizeVideo now userInteractions
          (RankingService.getVideoCategoryMap videos) userPreferences) = l := by
      intro vs l hsub h
      induction h with
      | nil => rfl
      | cons hvw _ ih =>
        rw [List.map_cons,
          personalizeVideo_spec now videos userInteractions userPreferences _ _
            (hsub _ (List.mem_cons_self _ _)) hvw,
          ih (fun v hv => hsub v (List.mem_cons_of_mem _ hv))]
    unfold RankingService.personalizeVideoRanking
    refine (sortSlice_perm _ _).trans ?_
    rw [hmap videos l (fun v hv => hv) hl]
  · intro hden
    have hall : ∀ vs : List Video, ∃ l, List.Forall₂
        (fun v w => specPersonalized now userInteractions userPreferences v = some w)
        vs l := by
      intro vs
      induction vs with
      | nil => exact ⟨[], List.Forall₂.nil⟩
      | cons v rest ih =>
        obtain ⟨l, hl⟩ := ih
        obtain ⟨w, hw⟩ := specPersonalized_defined now userInteractions userPreferences hden v
        exact ⟨w :: l, List.Forall₂.cons hw hl⟩
    exact hall videos
  · intro t h1 h2
    unfold hoursSince
    rw [timeSince_of_range h1 h2]
  · intro t ht
    have h0 := @hoursSince_nonneg now t ht
    have hpos : (0 : ℚ) < 1 + hoursSince now t / 24 := by positivity
    refine ⟨by positivity, ?_⟩
    rw [div_le_one hpos]
    linarith [div_nonneg h0 (by norm_num : (0 : ℚ) ≤ 24)]
  · simp [RankingService.personalizeVideoRanking, sortSlice, insertLeft, personalizeVideo,
      interactionMap, exPreference, RankingService.getVideoCategoryMap, categoryLoop,
      categoryInnerLoop, exVideo, exInteraction, hoursSince, hts]
    norm_num
  · simp [RankingService.personalizeVideoRanking, sortSlice, insertLeft, personalizeVideo,
      interactionMap, exPreference, RankingService.getVideoCategoryMap, categoryLoop,
      categoryInnerLoop, exVideo, exInteraction]

/-- Witness of C6: the example of the specification, two hours after the last view,
where the hours are 2, the adjusted score of the specification is 13.7 × 12/13 + 3, and
the query returns the example item with that score. -/
theorem C6_adjusted_score_witness :
    hoursSince 7200000000000 0 = 2
      ∧ specPersonalized 7200000000000 [exInteraction] (exPreference ["default"]) exVideo
          = some { exVideo with Score := 137 / 10 * (12 / 13) + 3 }
      ∧ (RankingService.personalizeVideoRanking 7200000000000 [exVideo] [exInteraction]
          (exPreference ["default"])).Perm
          [{ exVideo with Score := 137 / 10 * (12 / 13) + 3 }] := by
  have h := C6_adjusted_score_in_fixed_order 7200000000000 [exVideo] [exInteraction]
    (exPreference ["default"])
  have h2 : hoursSince 7200000000000 0 = 2 :=
    (h.2.2.1 0 (by decide) (by decide)).trans (by norm_num)
  have hs : specPersonalized 7200000000000 [exInteraction] (exPreference ["default"]) exVideo
      = some { exVideo with Score := 137 / 10 * (12 / 13) + 3 } := by
    have hr : specRecordFor [exInteraction] exVideo.ID = some exInteraction := by
      simp [specRecordFor, exInteraction, exVideo]
    unfold specPersonalized specAdjustedScore
    rw [hr]
    have hl : exInteraction.LastViewed = 0 := rfl
    simp only [hl, h2]
    rw [if_neg (by norm_num)]
    simp [exVideo, exInteraction, exPreference]
    norm_num
  exact ⟨h2, hs, h.1 _ (List.Forall₂.cons hs List.Forall₂.nil)⟩

/-- Counterexample to C7 as stated: with the preference list ["default", "default"]
the example item, whose score is 10, gets the category bonus twice and ends at 16, not
at 13. -/
theorem C7_repeated_category_adds_bonus_twice :
    RankingService.personalizeVideoRanking 0 [exVideo] [] (exPreference ["default", "default"])
        = [{ exVideo with Score := 16 }]
      ∧ exVideo.Score = 10 ∧ (16 : ℚ) ≠ 10 + 3 := by
  refine ⟨?_, rfl, by norm_num⟩
  simp [RankingService.personalizeVideoRanking, sortSlice, insertLeft, personalizeVideo,
    interactionMap, exPreference, RankingService.getVideoCategoryMap, categoryLoop,
    categoryInnerLoop, exVideo]
  norm_num

/-- C7 (amended): the category loops add 3 once for each entry of the preference list
that equals one of the categories of the item, an entry listed twice counting twice;
so for every candidate list `personalizeVideoRanking` returns, up to order, what it
returns for an empty preference list with every score raised by 3 × the number of
preference entries equal to the category of the item: by exactly 3 when one entry
matches and by 0 when none does or the list is empty. -/
theorem C7_bonus_per_matching_entry :
    (∀ (score : ℚ) (videoCategories userCategories : List String),
        categoryLoop score videoCategories userCategories
          = score + 3 * (matchingEntries userCategories videoCategories : ℚ))
      ∧ (∀ (now : Time) (videos : List Video) (userInteractions : List UserVideoInteraction)
          (userPreferences : UserPreference),
        (RankingService.personalizeVideoRanking now videos userInteractions
            userPreferences).Perm
          ((RankingService.personalizeVideoRanking now videos userInteractions
              { userPreferences with Categories := [] }).map
            (fun v => { v with Score := v.Score
              + 3 * (matchingEntries userPreferences.Categories ["default"] : ℚ) }))) := by
  refine ⟨fun score vc uc => categoryLoop_eq vc uc score, ?_⟩
  intro now videos userInteractions userPreferences
  unfold RankingService.personalizeVideoRanking
  refine (sortSlice_perm _ _).trans ?_
  refine List.Perm.symm ?_
  refine ((sortSlice_perm _ _).map _).trans ?_
  rw [List.map_map]
  refine List.Perm.of_eq (List.map_congr_left ?_)
  intro v hv
  have hcat := getVideoCategoryMap_mem hv
  have hb := personalizeVideo_bonus now userInteractions
    (RankingService.getVideoCategoryMap videos) userPreferences v ["default"] hcat
  have hf := personalizeVideo_frame now userInteractions
    (RankingService.getVideoCategoryMap videos) userPreferences v
  have hf0 := personalizeVideo_frame now userInteractions
    (RankingService.getVideoCategoryMap videos) { userPreferences with Categories := [] } v
  simp only [Function.comp_apply]
  rw [hf, hf0]
  simp only [hb]

/-- Counterexample to C8 as stated: two candidates of equal adjusted score 5 are
returned with item id 2 before item id 1. -/
theorem C8_equal_scores_not_ordered_by_id :
    RankingService.personalizeVideoRanking 0
        [{ exVideo with ID := 2, Score := 5 }, { exVideo with ID := 1, Score := 5 }] []
        (exPreference [])
      = [{ exVideo with ID := 2, Score := 5 }, { exVideo with ID := 1, Score := 5 }]
      ∧ ({ exVideo with ID := 2, Score := 5 } : Video).Score
          = ({ exVideo with ID := 1, Score := 5 } : Video).Score
      ∧ ({ exVideo with ID := 1, Score := 5 } : Video).ID
          < ({ exVideo with ID := 2, Score := 5 } : Video).ID := by
  refine ⟨?_, rfl, by decide⟩
  simp [RankingService.personalizeVideoRanking, sortSlice, insertLeft, personalizeVideo,
    interactionMap, exPreference]

/-- C8 (amended): for every candidate list, the list returned by
`personalizeVideoRanking` is ordered by descending adjusted score; the order of two
items of equal adjusted score is not decided by their ids. -/
theorem C8_sorted_by_descending_score (now : Time) (videos : List Video)
    (userInteractions : List UserVideoInteraction) (userPreferences : UserPreference) :
    (RankingService.personalizeVideoRanking now videos userInteractions
      userPreferences).Pairwise (fun a b => a.Score ≥ b.Score) := by
  unfold RankingService.personalizeVideoRanking
  have h := sortSlice_pairwise (fun a b : Video => decide (a.Score > b.Score))
    (by intro a b hab
        simp only [gt_iff_lt, decide_eq_true_eq, decide_eq_false_iff_not, not_lt] at hab ⊢
        exact le_of_lt hab)
    (by intro a b c hab hbc
        simp only [gt_iff_lt, decide_eq_false_iff_not, not_lt] at hab hbc ⊢
        exact le_trans hab hbc)
    (videos.map (personalizeVideo now userInteractions
      (RankingService.getVideoCategoryMap videos) userPreferences))
  refine h.imp ?_
  intro a b hab
  simpa using hab

/-! ## Pagination (C9, C10) -/

/-- C9 (the code at the failing input): for a personalized list of any length n, the
pagination with start = n and stop = n does not return an empty list: the slice
expression is out of range and the call panics. -/
theorem C9_start_eq_len_stop_eq_len_panics (personalizedVideos : List Video) :
    GetTopVideosPerUser.paginate personalizedVideos personalizedVideos.length
      personalizedVideos.length = .error .sliceBounds := by
  unfold GetTopVideosPerUser.paginate sliceExpr
  simp

/-- C10 (the code at the failing input): for a personalized list of any length n, the
pagination with start = 0 and stop = n does not clamp stop to n - 1: the slice
expression is out of range and the call panics. -/
theorem C10_stop_eq_len_not_clamped (personalizedVideos : List Video) :
    GetTopVideosPerUser.paginate personalizedVideos 0 personalizedVideos.length
      = .error .sliceBounds := by
  unfold GetTopVideosPerUser.paginate sliceExpr
  simp

/-! ## Interaction history and failures of the writes (C11 to C14) -/

/-- C11 (the code at the failing input): an upsert on an existing record of the same
pair adds the upserted views and watchTime to the old ones and sets lastViewed, but
replaces likes, comments and shares by the upserted values; so a like event followed
by a view event of the same user on the same item, both applied successfully, leaves
likes = 0. -/
theorem C11_upsert_overwrites_likes :
    (∀ r i : UserVideoInteraction,
        (PostgresStore.UpdateUserVideoInteraction exEnv
            { exState with user_video_interactions := [r] }
            { i with UserID := r.UserID, VideoID := r.VideoID }).2.user_video_interactions
          = [{ r with LastViewed := i.LastViewed, Views := r.Views + i.Views,
                      Likes := i.Likes, Comments := i.Comments, Shares := i.Shares,
                      WatchTime := r.WatchTime + i.WatchTime }])
      ∧ (∀ r ∈ (ConsumeVideoEvents exState [(exEnv, exLike), (exEnv, exView)]).1, r = .ok ())
      ∧ (ConsumeVideoEvents exState
            [(exEnv, exLike), (exEnv, exView)]).2.user_video_interactions
          = [{ UserID := "u", VideoID := 7, LastViewed := 100, Views := 1, Likes := 0,
               Comments := 0, Shares := 0, WatchTime := 0 }] := by
  refine ⟨?_, ?_, ?_⟩
  · intro r i
    simp [PostgresStore.UpdateUserVideoInteraction, exEnv, exState]
  · intro r hr
    simp only [ConsumeVideoEvents, List.mem_cons, List.mem_singleton, List.not_mem_nil,
      or_false] at hr
    rcases hr with h | h <;> rw [h] <;> rfl
  · simp [ConsumeVideoEvents, ProcessVideoEvent, RankingService.GetVideo,
      PostgresStore.GetVideo, exEnv, exState, exLike, exView, selectVideo, applyAction,
      exVideo, RankingService.UpdateVideo, PostgresStore.UpdateVideo,
      RankingService.UpdateUserVideoInteraction, PostgresStore.UpdateUserVideoInteraction,
      RankingService.updateVideoInRedis, RedisStore.UpdateVideoScore, ViewAction, LikeAction,
      CommentAction, ShareAction, WatchTimeAction, eventInteraction]

/-- Counterexample to C12 as stated: the record upserted for the successfully applied
watch_time event of value 3/2 has watchTime 1, not 3/2; and the record upserted for
the successfully applied watch_time event of value 10 ^ 19, which no 64-bit integer
holds, has the least 64-bit integer as watchTime. -/
theorem C12_fractional_value_truncated_in_record :
    (ProcessVideoEvent exEnv exState (exWatch (3 / 2))).1 = .ok ()
      ∧ (ProcessVideoEvent exEnv exState (exWatch (3 / 2))).2.user_video_interactions
          = [{ UserID := "u", VideoID := 7, LastViewed := 100, Views := 0, Likes := 0,
               Comments := 0, Shares := 0, WatchTime := 1 }]
      ∧ ((1 : Int) : ℚ) ≠ 3 / 2
      ∧ (ProcessVideoEvent exEnv exState (exWatch 10000000000000000000)).1 = .ok ()
      ∧ (ProcessVideoEvent exEnv exState
            (exWatch 10000000000000000000)).2.user_video_interactions
          = [{ UserID := "u", VideoID := 7, LastViewed := 100, Views := 0, Likes := 0,
               Comments := 0, Shares := 0, WatchTime := -9223372036854775808 }]
      ∧ ((-9223372036854775808 : Int) : ℚ) ≠ 10000000000000000000 := by
  refine ⟨rfl, ?_, by norm_num, rfl, ?_, by norm_num⟩
  · simp [ProcessVideoEvent, RankingService.GetVideo, PostgresStore.GetVideo, exEnv, exState,
      exWatch, selectVideo, applyAction, exVideo, RankingService.UpdateVideo,
      PostgresStore.UpdateVideo, RankingService.UpdateUserVideoInteraction,
      PostgresStore.UpdateUserVideoInteraction, RankingService.updateVideoInRedis,
      RedisStore.UpdateVideoScore, ViewAction, LikeAction, CommentAction, ShareAction,
      WatchTimeAction, eventInteraction, goInt_three_halves]
  · simp [ProcessVideoEvent, RankingService.GetVideo, PostgresStore.GetVideo, exEnv, exState,
      exWatch, selectVideo, applyAction, exVideo, RankingService.UpdateVideo,
      PostgresStore.UpdateVideo, RankingService.UpdateUserVideoInteraction,
      PostgresStore.UpdateUserVideoInteraction, RankingService.updateVideoInRedis,
      RedisStore.UpdateVideoScore, ViewAction, LikeAction, CommentAction, ShareAction,
      WatchTimeAction, eventInteraction, goInt_ten_pow_19, minInt64]

/-- C12 (amended): for every successfully applied event whose value, when the action
is watch_time, is below 2 ^ 63 in magnitude, the stores after the call are the result of
upserting one interaction record, which carries the user id and the item id of the
event, the clock reading as lastViewed, and only the increment of the event: the
counter of the action of the event is 1, or for watch_time the value of the event
truncated toward zero to an integer, and every other counter is 0. -/
theorem C12_upserted_record_single_increment (env : Env) (s : State) (event : VideoEvent)
    (hok : (ProcessVideoEvent env s event).1 = .ok ())
    (hrange : ∀ x, event.Action = "watch_time" → event.Value = .float64 x →
      |x| < 9223372036854775808) :
    (∃ s1, (ProcessVideoEvent env s event).2
        = (PostgresStore.UpdateUserVideoInteraction env s1 (eventInteraction env event)).2)
      ∧ (eventInteraction env event).UserID = event.UserID
      ∧ (eventInteraction env event).VideoID = event.VideoID
      ∧ (eventInteraction env event).LastViewed = env.now
      ∧ (eventInteraction env event).Views = (if event.Action = "view" then 1 else 0)
      ∧ (eventInteraction env event).Likes = (if event.Action = "like" then 1 else 0)
      ∧ (eventInteraction env event).Comments = (if event.Action = "comment" then 1 else 0)
      ∧ (eventInteraction env event).Shares = (if event.Action = "share" then 1 else 0)
      ∧ (eventInteraction env event).WatchTime
          = (if event.Action = "watch_time" then
              match event.Value with
              | .float64 x => specTruncate x
              | _ => 0
            else 0) := by
  obtain ⟨video, video1, hsel, happ, _⟩ := ProcessVideoEvent_ok hok
  obtain ⟨hget, hupd⟩ := ProcessVideoEvent_ok_env hok
  refine ⟨⟨_, by rw [ProcessVideoEvent_run hget hupd hsel happ]⟩, ?_⟩
  obtain ⟨f1, f2, f3, f4, f5, f6, f7, f8⟩ := eventInteraction_fields env event
  refine ⟨f1, f2, f3, f4, f5, f6, f7, ?_⟩
  rw [f8, watchIncrement_of_range event hrange]
  rfl

/-- Witness of C12 (amended): a watch_time event of value 3/2 on the example item,
whose record carries watchTime 1 and 0 in every other counter. -/
theorem C12_upserted_record_witness :
    (∃ s1, (ProcessVideoEvent exEnv exState (exWatch (3 / 2))).2
        = (PostgresStore.UpdateUserVideoInteraction exEnv s1
            (eventInteraction exEnv (exWatch (3 / 2)))).2)
      ∧ (eventInteraction exEnv (exWatch (3 / 2))).UserID = "u"
      ∧ (eventInteraction exEnv (exWatch (3 / 2))).VideoID = 7
      ∧ (eventInteraction exEnv (exWatch (3 / 2))).LastViewed = 100
      ∧ (eventInteraction exEnv (exWatch (3 / 2))).Views = 0
      ∧ (eventInteraction exEnv (exWatch (3 / 2))).Likes = 0
      ∧ (eventInteraction exEnv (exWatch (3 / 2))).Comments = 0
      ∧ (eventInteraction exEnv (exWatch (3 / 2))).Shares = 0
      ∧ (eventInteraction exEnv (exWatch (3 / 2))).WatchTime = 1 :=
  let h := C12_upserted_record_single_increment exEnv exState (exWatch (3 / 2)) rfl
    (by intro x _ hx
        simp only [exWatch, EventValue.float64.injEq] at hx
        rw [← hx, abs_lt]
        constructor <;> norm_num)
  ⟨h.1, h.2.1, h.2.2.1, h.2.2.2.1, h.2.2.2.2.1, h.2.2.2.2.2.1, h.2.2.2.2.2.2.1,
    h.2.2.2.2.2.2.2.1,
    h.2.2.2.2.2.2.2.2.trans ((truncInt_eq_specTruncate _).symm.trans truncInt_three_halves)⟩

/-- C13: when the write of the updated video to Postgres fails, `ProcessVideoEvent`
returns an error and leaves every store unchanged, so neither the leaderboard upsert
nor the interaction upsert is performed; for a valid event on an existing item the
error is the one of the failed write. -/
theorem C13_aggregate_write_failure_is_fatal (env : Env) (s : State) (event : VideoEvent)
    (hfail : env.updateVideoErr = true) :
    (∃ e, (ProcessVideoEvent env s event).1 = .error e)
      ∧ (ProcessVideoEvent env s event).2 = s
      ∧ (∀ video video1, env.getVideoErr = false →
          selectVideo s.videos event.VideoID = some video →
          applyAction event video = .ok video1 →
          (ProcessVideoEvent env s event).1 = .error .updateVideo) := by
  have hrun : ∀ video1, RankingService.UpdateVideo env s video1 = (.error .updateVideo, s) := by
    intro video1
    unfold RankingService.UpdateVideo PostgresStore.UpdateVideo
    simp [hfail]
  have h12 : (∃ e, (ProcessVideoEvent env s event).1 = .error e)
      ∧ (ProcessVideoEvent env s event).2 = s := by
    unfold ProcessVideoEvent
    cases hg : RankingService.GetVideo env s event.VideoID with
    | error e => exact ⟨⟨e, rfl⟩, rfl⟩
    | ok video =>
      simp only [hrun]
      cases happ : applyAction event video with
      | error e => exact ⟨⟨e, rfl⟩, rfl⟩
      | ok video1 => exact ⟨⟨_, rfl⟩, rfl⟩
  refine ⟨h12.1, h12.2, ?_⟩
  intro video video1 hget hsel happ
  unfold ProcessVideoEvent RankingService.GetVideo PostgresStore.GetVideo
  simp only [hget, Bool.false_eq_true, if_false, hsel, happ, hrun]

/-- Witness of C13: a like event on the example item while the Postgres write fails. -/
theorem C13_aggregate_write_failure_witness :
    (∃ e, (ProcessVideoEvent { exEnv with updateVideoErr := true } exState exLike).1 = .error e)
      ∧ (ProcessVideoEvent { exEnv with updateVideoErr := true } exState exLike).2 = exState
      ∧ (∀ video video1, ({ exEnv with updateVideoErr := true } : Env).getVideoErr = false →
          selectVideo exState.videos exLike.VideoID = some video →
          applyAction exLike video = .ok video1 →
          (ProcessVideoEvent { exEnv with updateVideoErr := true } exState exLike).1
            = .error .updateVideo) :=
  C13_aggregate_write_failure_is_fatal { exEnv with updateVideoErr := true } exState exLike rfl

/-- C14: for every valid event on an existing item whose Postgres write succeeds,
`ProcessVideoEvent` reports success whether or not the leaderboard upsert and the
interaction upsert fail, and the row of the item afterwards is the row that the
handler computed: the counter of the action of the event is one more (for watch_time,
the converted value more) in 64-bit arithmetic and every other counter is as before;
when the watch_time value is below 2 ^ 63 in magnitude and the counter totals stay
within the 64-bit integers, each counter is the old one plus the increment of the event
(1 for the counter of the action, the value truncated toward zero for watch_time); and
for a whole score and a whole weight of the event (view 1, like 5, comment 3, share 4,
watch_time value × 0.05) whose magnitudes add up to at most 2 ^ 53 the score is the old
score plus the weight, which the float64 operations of the code give without rounding.
When the leaderboard upsert succeeds the leaderboard score of the item is the persisted
score. -/
theorem C14_best_effort_side_writes (env : Env) (s : State) (event : VideoEvent)
    (video : Video)
    (hget : env.getVideoErr = false) (hupd : env.updateVideoErr = false)
    (hsel : selectVideo s.videos event.VideoID = some video)
    (hvalid : validEvent event = true) :
    (ProcessVideoEvent env s event).1 = .ok ()
      ∧ ∃ video1, applyAction event video = .ok video1
        ∧ selectVideo (ProcessVideoEvent env s event).2.videos event.VideoID
            = some { video1 with UpdatedAt := env.now }
        ∧ video1.Views
            = (if event.Action = "view" then wrapInt64 (video.Views + 1) else video.Views)
        ∧ video1.Likes
            = (if event.Action = "like" then wrapInt64 (video.Likes + 1) else video.Likes)
        ∧ video1.Comments
            = (if event.Action = "comment" then wrapInt64 (video.Comments + 1)
                else video.Comments)
        ∧ video1.Shares
            = (if event.Action = "share" then wrapInt64 (video.Shares + 1)
                else video.Shares)
        ∧ video1.WatchTime
            = (if event.Action = "watch_time"
                then wrapInt64 (video.WatchTime + watchIncrement event)
                else video.WatchTime)
        ∧ ((∀ x, event.Action = "watch_time" → event.Value = .float64 x →
              |x| < 9223372036854775808) →
            (∀ total ∈ [video.Views + actionIncrement "view" event,
                video.Likes + actionIncrement "like" event,
                video.Comments + actionIncrement "comment" event,
                video.Shares + actionIncrement "share" event,
                video.WatchTime + specTruncatedWatchValue event],
              minInt64 ≤ total ∧ total ≤ maxInt64) →
            video1.Views = video.Views + actionIncrement "view" event
              ∧ video1.Likes = video.Likes + actionIncrement "like" event
              ∧ video1.Comments = video.Comments + actionIncrement "comment" event
              ∧ video1.Shares = video.Shares + actionIncrement "share" event
              ∧ video1.WatchTime = video.WatchTime + specTruncatedWatchValue event)
        ∧ (∀ n : Int, video.Score = (n : ℚ) → (∃ w : Int, specWeight event = (w : ℚ)) →
            |video.Score| + |specWeight event| ≤ 9007199254740992 →
            video1.Score = video.Score + specWeight event
              ∧ scoreF64 event (some video.Score) = some video1.Score)
        ∧ (env.zaddErr = false →
            zscore (ProcessVideoEvent env s event).2.video_ranking event.VideoID
              = some video1.Score) := by
  obtain ⟨video1, happ⟩ := applyAction_of_valid event video hvalid
  have hrun := ProcessVideoEvent_run hget hupd hsel happ
  have hok : (ProcessVideoEvent env s event).1 = .ok () := by rw [hrun]
  obtain ⟨video0, video2, hsel2, happ2, hafter⟩ := ProcessVideoEvent_ok hok
  rw [hsel] at hsel2
  cases hsel2
  rw [happ] at happ2
  cases happ2
  refine ⟨hok, video1, happ, hafter, ?_⟩
  obtain ⟨e0, e1, e2, e3, e4, e5⟩ := applyAction_effect happ
  refine ⟨e1, e2, e3, e4, e5, ?_, ?_, ?_⟩
  · intro hrange hfit
    have hwatch : (if event.Action = "watch_time" then watchIncrement event else 0)
        = specTruncatedWatchValue event := by
      rw [watchIncrement_of_range event hrange]
      unfold specTruncatedWatchValue
      split_ifs <;> rfl
    refine ⟨?_, ?_, ?_, ?_, ?_⟩
    · rw [e1]
      exact counter_step_of_range _ _ 1 (hfit _ (by simp [actionIncrement]))
    · rw [e2]
      exact counter_step_of_range _ _ 1 (hfit _ (by simp [actionIncrement]))
    · rw [e3]
      exact counter_step_of_range _ _ 1 (hfit _ (by simp [actionIncrement]))
    · rw [e4]
      exact counter_step_of_range _ _ 1 (hfit _ (by simp [actionIncrement]))
    · rw [e5, ← hwatch]
      exact counter_step_of_range _ _ _ (by rw [hwatch]; exact hfit _ (by simp))
  · intro n hn hint hbound
    refine ⟨e0, ?_⟩
    rw [e0, hn, scoreF64_exact_one event n hint (by rw [← hn]; exact hbound)]
  · intro hz
    have hid : video1.ID = event.VideoID :=
      (applyAction_frame happ).1.trans (selectVideo_id hsel)
    have hrank : (ProcessVideoEvent env s event).2.video_ranking
        = zadd s.video_ranking video1.ID video1.Score := by
      rw [hrun]
      unfold PostgresStore.UpdateUserVideoInteraction RedisStore.UpdateVideoScore
        PostgresStore.UpdateVideo
      simp only [hz, hupd, Bool.false_eq_true, if_false]
      split_ifs <;> rfl
    rw [hrank, ← hid]
    exact zscore_zadd _ _ _

/-- Witness of C14: a like event on the example item, whose score is 10, while the
leaderboard upsert and the interaction upsert both fail (success is reported and the
row carries 1 like and the score 15), and while both succeed (the leaderboard score of
the item is 15). -/
theorem C14_best_effort_side_writes_witness :
    (ProcessVideoEvent { exEnv with zaddErr := true, updateInteractionErr := true }
        exState exLike).1 = .ok ()
      ∧ selectVideo (ProcessVideoEvent
          { exEnv with zaddErr := true, updateInteractionErr := true }
          exState exLike).2.videos 7
          = some { exVideo with Likes := 1, Score := 15, UpdatedAt := 100 }
      ∧ scoreF64 exLike (some 10) = some 15
      ∧ zscore (ProcessVideoEvent exEnv exState exLike).2.video_ranking 7 = some 15 := by
  have happ : ∀ video1, applyAction exLike exVideo = .ok video1 →
      video1 = { exVideo with Likes := 1, Score := 15 } := by
    intro video1 h
    have h2 : applyAction exLike exVideo
        = .ok { exVideo with Likes := 1, Score := 15 } := by
      simp [applyAction, exLike, exVideo, ViewAction, LikeAction]
      constructor
      · norm_num
      · decide
    rw [h2] at h
    cases h
    rfl
  obtain ⟨hok, video1, h1, hrow, _, _, _, _, _, _, hscore, _⟩ := C14_best_effort_side_writes
    { exEnv with zaddErr := true, updateInteractionErr := true } exState exLike exVideo
    rfl rfl rfl rfl
  obtain ⟨_, video2, h2, _, _, _, _, _, _, _, _, hz⟩ :=
    C14_best_effort_side_writes exEnv exState exLike exVideo rfl rfl rfl rfl
  have e1 := happ video1 h1
  have e2 := happ video2 h2
  subst e1
  subst e2
  refine ⟨hok, hrow, ?_, hz rfl⟩
  have h := (hscore 10 (by simp [exVideo]) ⟨5, by simp [specWeight, exLike]⟩
    (by simp [exVideo, specWeight, exLike]; norm_num)).2
  simpa [exVideo] using h

/-! ## Global ranking (C15, C20) -/

/-- C15 (the code at the failing input): when the leaderboard ranks item 7 and the
table of videos has no row for it, `GetTopVideos(0, 2)` does not fail, but the item is
not skipped: the returned list has one element, the zero-valued video. -/
theorem C15_missing_entry_left_as_zero_video :
    RankingService.GetTopVideos exEnv exLaggingStore 0 2 = .ok [zeroVideo]
      ∧ selectVideo exLaggingStore.videos 7 = none
      ∧ zrevrange exLaggingStore.video_ranking 0 2 = [7] := by
  have hz : zrevrange exLaggingStore.video_ranking 0 2 = [7] := by
    simp [zrevrange, exLaggingStore, sortSlice, insertLeft]
  refine ⟨?_, rfl, hz⟩
  unfold RankingService.GetTopVideos RedisStore.GetTopVideos
  rw [hz]
  simp [exEnv, exLaggingStore, zscore, PostgresStore.GetVideo, selectVideo, zeroVideo]

/-- Counterexample to C20 as stated: with a leaderboard that lags behind the table of
videos, `GetTopVideos(0, 2)` returns the scores 10, 20 in this order; and with two items
of equal score it returns item 2 before item 1. -/
theorem C20_scores_not_descending_ties_not_ascending :
    RankingService.GetTopVideos exEnv exLaggingLeaderboard 0 2
        = .ok [{ exVideo with ID := 1, Score := 10 }, { exVideo with ID := 2, Score := 20 }]
      ∧ (10 : ℚ) < 20
      ∧ RankingService.GetTopVideos exEnv exTiedLeaderboard 0 2
        = .ok [{ exVideo with ID := 2, Score := 10 }, { exVideo with ID := 1, Score := 10 }]
      ∧ (1 : UUID) < 2 := by
  have hz1 : zrevrange exLaggingLeaderboard.video_ranking 0 2 = [1, 2] := by
    simp [zrevrange, exLaggingLeaderboard, sortSlice, insertLeft, zrevLess]
    norm_num
  have hz2 : zrevrange exTiedLeaderboard.video_ranking 0 2 = [2, 1] := by
    simp [zrevrange, exTiedLeaderboard, sortSlice, insertLeft, zrevLess]
  refine ⟨?_, by norm_num, ?_, by decide⟩
  · unfold RankingService.GetTopVideos RedisStore.GetTopVideos
    rw [hz1]
    simp [exEnv, exLaggingLeaderboard, zscore, PostgresStore.GetVideo, selectVideo,
      zeroVideo, exVideo]
  · unfold RankingService.GetTopVideos RedisStore.GetTopVideos
    rw [hz2]
    simp [exEnv, exTiedLeaderboard, zscore, PostgresStore.GetVideo, selectVideo,
      zeroVideo, exVideo]

/-- C20 (amended): for every leaderboard and every table of videos, `GetTopVideos(0, 2)`
returns at most 3 items; and when no store call fails and every ranked item has a row
whose score is its leaderboard score, the scores of the returned items are in
descending order, items of equal score in descending order of id, and the returned
ids are the reply of the Redis range. -/
theorem C20_top_three_in_leaderboard_order (env : Env) (s : State) :
    (∀ l, RankingService.GetTopVideos env s 0 2 = .ok l → l.length ≤ 3)
      ∧ (env.zrevrangeErr = false → env.zscoreErr = false → env.getVideoErr = false →
          (∀ p ∈ s.video_ranking, ∃ v, selectVideo s.videos p.1 = some v ∧ v.Score = p.2) →
          ∃ l, RankingService.GetTopVideos env s 0 2 = .ok l
            ∧ l.Pairwise (fun a b => a.Score ≥ b.Score ∧ (a.Score = b.Score → a.ID ≥ b.ID))
            ∧ l.map (fun v => v.ID) = zrevrange s.video_ranking 0 2) := by
  obtain ⟨w, hw, hsub, hlen⟩ := zrevrange_window s.video_ranking 0 2
  obtain ⟨hsorted, hmem⟩ := zrevrange_sorted_window hsub
  refine ⟨?_, ?_⟩
  · intro l hl
    rw [GetTopVideos_length env s 0 2 l hl, hw, List.length_map]
    exact hlen rfl rfl
  · intro h1 h2 h3 hrows
    obtain ⟨l, hl, hf⟩ := GetTopVideos_rows env s 0 2 h1 h2 h3 w hw hmem hrows
    refine ⟨l, hl, forall₂_pairwise_scores hf hsorted, ?_⟩
    rw [hw]
    clear hl hsub hlen hsorted hmem hw
    induction hf with
    | nil => rfl
    | cons hpv _ ih => simp only [List.map_cons, ih, hpv.1]

/-- Witness of C20 (amended): a leaderboard of four items with the scores 1, 10, 5
and 10, each with a row of the same score: the query returns the three items 2, 1
and 3, of scores 10, 10 and 5. -/
theorem C20_top_three_witness :
    ∃ l, RankingService.GetTopVideos exEnv exFourLeaderboard 0 2 = .ok l
      ∧ l.length ≤ 3
      ∧ l.Pairwise (fun a b => a.Score ≥ b.Score ∧ (a.Score = b.Score → a.ID ≥ b.ID))
      ∧ l.map (fun v => v.ID) = [2, 1, 3] := by
  have hz : zrevrange exFourLeaderboard.video_ranking 0 2 = [2, 1, 3] := by
    simp [zrevrange, exFourLeaderboard, sortSlice, insertLeft, zrevLess]
    norm_num
  obtain ⟨l, h1, h2, h3⟩ := (C20_top_three_in_leaderboard_order exEnv exFourLeaderboard).2
    rfl rfl rfl
    (by intro p hp
        simp only [exFourLeaderboard, List.mem_cons, List.mem_singleton, List.not_mem_nil,
          or_false] at hp
        rcases hp with h | h | h | h <;> rw [h]
        · exact ⟨{ exVideo with ID := 4, Score := 1 }, rfl, rfl⟩
        · exact ⟨{ exVideo with ID := 1, Score := 10 }, rfl, rfl⟩
        · exact ⟨{ exVideo with ID := 3, Score := 5 }, rfl, rfl⟩
        · exact ⟨{ exVideo with ID := 2, Score := 10 }, rfl, rfl⟩)
  exact ⟨l, h1, (C20_top_three_in_leaderboard_order exEnv exFourLeaderboard).1 l h1, h2,
    h3.trans hz⟩

/-! ## Preferences (C16, C17) -/

/-- Counterexample to C16 as stated: the cache holds a live entry of user "u" with the
category "music", but the lookup fails; the resolution then calls `GetUserPreferences`,
returns the stored preference with the category "news", and writes it to the cache in
place of the entry. -/
theorem C16_failed_lookup_bypasses_cache_entry :
    ({ userID := "u", preferences := exPreference ["music"], expiresAt := 1000 } : CacheEntry)
        ∈ exPreferenceState.preference_cache
      ∧ ({ exEnv with cacheGetErr := true } : Env).now < 1000
      ∧ GetTopVideosPerUser.resolvePreferences { exEnv with cacheGetErr := true }
          exPreferenceState "u"
        = (exPreference ["news"],
            { exPreferenceState with preference_cache :=
                [{ userID := "u", preferences := exPreference ["news"],
                   expiresAt := 100 + 3600000000000 }] },
            [.GetCachedUserPreferences "u", .GetUserPreferences "u",
              .CacheUserPreferences "u" (exPreference ["news"]) 3600000000000])
      ∧ exPreference ["news"] ≠ exPreference ["music"] := by
  refine ⟨by simp [exPreferenceState], by decide, ?_, by decide⟩
  rw [resolvePreferences_miss _ _ _ (Or.inl rfl)]
  simp [PostgresStore.GetUserPreferences, selectUserPreferences, exPreferenceState, exEnv,
    exPreference, RedisStore.CacheUserPreferences, timeHour]

/-- C16 (amended): in the preference resolution of `GetTopVideosPerUser`, when the cache
lookup succeeds and the cache holds a live entry of the user, the preference of that
entry is used, the only store call is the lookup (no `GetUserPreferences`, no cache
write) and the stores are unchanged. When the lookup fails or the cache holds no live
entry of the user, the calls are the lookup, `GetUserPreferences` and the cache write of
the resolved preference with an expiration of one hour; the resolved preference is the
stored row of the user when the read succeeds and there is one, and the preference with
the user's id and no category when there is no row or the read fails; when the cache
write succeeds the cache holds, in place of any entry of the user, the resolved
preference until exactly one hour after the clock reading, and when it fails the
stores are unchanged. The stores after the whole query are those after the
resolution. -/
theorem C16_preference_resolution (env : Env) (s : State) (userID : String) :
    (env.cacheGetErr = false → ∀ entry ∈ s.preference_cache,
        entry.userID = userID → env.now < entry.expiresAt →
        (∀ c ∈ s.preference_cache, c.userID = userID → env.now < c.expiresAt → c = entry) →
        GetTopVideosPerUser.resolvePreferences env s userID
          = (entry.preferences, s, [.GetCachedUserPreferences userID]))
      ∧ ((env.cacheGetErr = true
            ∨ ∀ c ∈ s.preference_cache, c.userID = userID → c.expiresAt ≤ env.now) →
          (GetTopVideosPerUser.resolvePreferences env s userID).2.2
              = [.GetCachedUserPreferences userID, .GetUserPreferences userID,
                  .CacheUserPreferences userID
                    (GetTopVideosPerUser.resolvePreferences env s userID).1 3600000000000]
            ∧ (env.getPreferencesErr = false → ∀ row ∈ s.user_preferences,
                row.UserID = userID →
                (∀ r ∈ s.user_preferences, r.UserID = userID → r = row) →
                (GetTopVideosPerUser.resolvePreferences env s userID).1 = row)
            ∧ ((env.getPreferencesErr = true ∨ ∀ r ∈ s.user_preferences, r.UserID ≠ userID) →
                (GetTopVideosPerUser.resolvePreferences env s userID).1
                  = { UserID := userID, Categories := [], UpdatedAt := 0 })
            ∧ (env.cacheSetErr = false →
                (GetTopVideosPerUser.resolvePreferences env s userID).2.1
                    = { s with preference_cache :=
                        { userID := userID,
                          preferences := (GetTopVideosPerUser.resolvePreferences env s userID).1,
                          expiresAt := env.now + 3600000000000 }
                          :: s.preference_cache.filter (fun c => decide (c.userID ≠ userID)) }
                  ∧ ∀ t, cacheLookup
                      (GetTopVideosPerUser.resolvePreferences env s userID).2.1.preference_cache
                      userID t
                    = if t < env.now + 3600000000000
                      then some (GetTopVideosPerUser.resolvePreferences env s userID).1
                      else none)
            ∧ (env.cacheSetErr = true →
                (GetTopVideosPerUser.resolvePreferences env s userID).2.1 = s))
      ∧ (∀ start stop, (RankingService.GetTopVideosPerUser env s userID start stop).2
          = (GetTopVideosPerUser.resolvePreferences env s userID).2.1) := by
  refine ⟨?_, ?_, ?_⟩
  · intro hget entry hmem hid hlive huniq
    have hc := cacheLookup_of_live s.preference_cache userID env.now entry hmem hid hlive huniq
    unfold GetTopVideosPerUser.resolvePreferences RedisStore.GetCachedUserPreferences
    simp [hget, hc]
  · intro hmiss
    have hmiss2 : env.cacheGetErr = true
        ∨ cacheLookup s.preference_cache userID env.now = none := by
      rcases hmiss with h | h
      · exact Or.inl h
      · exact Or.inr (cacheLookup_of_expired _ _ _ h)
    rw [resolvePreferences_miss env s userID hmiss2]
    refine ⟨rfl, ?_, ?_, ?_, ?_⟩
    · intro hpref row hmem hid huniq
      have hsel := selectUserPreferences_of_row s.user_preferences userID row hmem hid huniq
      unfold PostgresStore.GetUserPreferences
      simp [hpref, hsel]
    · intro habsent
      unfold PostgresStore.GetUserPreferences
      rcases habsent with h | h
      · simp [h]
      · cases hp : env.getPreferencesErr
        · simp [selectUserPreferences_of_absent s.user_preferences userID h]
        · simp
    · intro hset
      refine ⟨?_, fun t => cacheLookup_set env s userID _ timeHour hset t⟩
      unfold RedisStore.CacheUserPreferences
      simp [hset, timeHour]
    · intro hset
      unfold RedisStore.CacheUserPreferences
      simp [hset]
  · intro start stop
    unfold RankingService.GetTopVideosPerUser
    simp only []
    split
    · rfl
    · split <;> rfl

/-- Witness of C16 (amended): the store at clock reading 100 in which user "u" has a
live cache entry (used as it is), user "v" has a stored preference and no cache entry
(the stored row is loaded and cached until one hour after 100), and user "w" has
neither (the empty preference of "w" is used). -/
theorem C16_preference_resolution_witness :
    GetTopVideosPerUser.resolvePreferences exEnv exTwoUserState "u"
        = (exPreference ["music"], exTwoUserState, [.GetCachedUserPreferences "u"])
      ∧ (GetTopVideosPerUser.resolvePreferences exEnv exTwoUserState "v").1
        = { UserID := "v", Categories := ["sports"], UpdatedAt := 5 }
      ∧ (GetTopVideosPerUser.resolvePreferences exEnv exTwoUserState "v").2.2
        = [.GetCachedUserPreferences "v", .GetUserPreferences "v",
            .CacheUserPreferences "v"
              (GetTopVideosPerUser.resolvePreferences exEnv exTwoUserState "v").1
              3600000000000]
      ∧ (GetTopVideosPerUser.resolvePreferences exEnv exTwoUserState "v").2.1
        = { exTwoUserState with preference_cache :=
            { userID := "v",
              preferences := (GetTopVideosPerUser.resolvePreferences exEnv exTwoUserState "v").1,
              expiresAt := exEnv.now + 3600000000000 }
              :: exTwoUserState.preference_cache.filter (fun c => decide (c.userID ≠ "v")) }
      ∧ (GetTopVideosPerUser.resolvePreferences exEnv exTwoUserState "w").1
        = { UserID := "w", Categories := [], UpdatedAt := 0 } := by
  have hu := (C16_preference_resolution exEnv exTwoUserState "u").1 rfl
    { userID := "u", preferences := exPreference ["music"], expiresAt := 1000 }
    (by simp [exTwoUserState]) rfl (by decide)
    (by intro c hc _ _
        simpa [exTwoUserState] using hc)
  have hv := (C16_preference_resolution exEnv exTwoUserState "v").2.1
    (Or.inr (by
      intro c hc hid
      simp only [exTwoUserState, List.mem_singleton] at hc
      rw [hc] at hid
      exact absurd hid (by decide)))
  have hw := (C16_preference_resolution exEnv exTwoUserState "w").2.1
    (Or.inr (by
      intro c hc hid
      simp only [exTwoUserState, List.mem_singleton] at hc
      rw [hc] at hid
      exact absurd hid (by decide)))
  refine ⟨hu, ?_, hv.1, (hv.2.2.2.1 rfl).1, ?_⟩
  · exact hv.2.1 rfl { UserID := "v", Categories := ["sports"], UpdatedAt := 5 }
      (by simp [exTwoUserState]) rfl
      (by intro r hr hid
          simp only [exTwoUserState, List.mem_cons, List.mem_singleton, List.not_mem_nil,
            or_false] at hr
          rcases hr with h | h
          · rw [h] at hid
            exact absurd hid (by decide)
          · exact h)
  · exact hw.2.2.1 (Or.inr (by
      intro r hr
      simp only [exTwoUserState, List.mem_cons, List.mem_singleton, List.not_mem_nil,
        or_false] at hr
      rcases hr with h | h <;> rw [h] <;> decide))

/-- C17: `UpdateUserPreferences` writes Postgres first; when that write fails it
returns the error and leaves every store, the cache included, unchanged; when it
succeeds it returns success whether or not the cache delete fails, and the row of the
user holds the new categories; after a successful delete the cache has no entry for
the user at any instant, and the next preference resolution whose Postgres read
succeeds returns the updated categories. -/
theorem C17_update_invalidates_cache (env : Env) (s : State) (preferences : UserPreference) :
    (env.updatePreferencesErr = true →
        RankingService.UpdateUserPreferences env s preferences = (.error .updatePreferences, s))
      ∧ (env.updatePreferencesErr = false →
          (RankingService.UpdateUserPreferences env s preferences).1 = .ok ()
            ∧ (∃ row, selectUserPreferences
                  (RankingService.UpdateUserPreferences env s preferences).2.user_preferences
                  preferences.UserID = some row
                ∧ row.UserID = preferences.UserID
                ∧ row.Categories = preferences.Categories)
            ∧ (env.cacheDelErr = false →
                (∀ t, cacheLookup
                    (RankingService.UpdateUserPreferences env s preferences).2.preference_cache
                    preferences.UserID t = none)
                ∧ (∀ env2 : Env, env2.getPreferencesErr = false →
                    (GetTopVideosPerUser.resolvePreferences env2
                      (RankingService.UpdateUserPreferences env s preferences).2
                      preferences.UserID).1.Categories = preferences.Categories))) := by
  refine ⟨?_, ?_⟩
  · intro hfail
    unfold RankingService.UpdateUserPreferences PostgresStore.UpdateUserPreferences
    simp [hfail]
  · intro hupd
    obtain ⟨row, hrow, hid, hcat, _⟩ := selectUserPreferences_upsert env s preferences hupd
    have hfst : (PostgresStore.UpdateUserPreferences env s preferences).1 = .ok () := by
      unfold PostgresStore.UpdateUserPreferences
      simp only [hupd, Bool.false_eq_true, if_false]
      split_ifs <;> rfl
    have hrun : RankingService.UpdateUserPreferences env s preferences
        = (.ok (), (RedisStore.DeleteCachedUserPreferences env
            (PostgresStore.UpdateUserPreferences env s preferences).2
            preferences.UserID).2) := by
      unfold RankingService.UpdateUserPreferences
      cases hp : PostgresStore.UpdateUserPreferences env s preferences with
      | mk r s1 =>
        rw [hp] at hfst
        simp only at hfst
        subst hfst
        rfl
    have hprefs : (RankingService.UpdateUserPreferences env s preferences).2.user_preferences
        = (PostgresStore.UpdateUserPreferences env s preferences).2.user_preferences := by
      rw [hrun]
      unfold RedisStore.DeleteCachedUserPreferences
      split_ifs <;> rfl
    refine ⟨by rw [hrun], ⟨row, by rw [hprefs]; exact hrow, hid, hcat⟩, ?_⟩
    intro hdel
    have hcache : ∀ t, cacheLookup
        (RankingService.UpdateUserPreferences env s preferences).2.preference_cache
        preferences.UserID t = none := by
      intro t
      rw [hrun]
      unfold RedisStore.DeleteCachedUserPreferences
      simp only [hdel, Bool.false_eq_true, if_false]
      exact cacheLookup_filter_ne _ _ _
    refine ⟨hcache, ?_⟩
    intro env2 hread
    rw [resolvePreferences_miss env2 _ preferences.UserID (Or.inr (hcache env2.now))]
    unfold PostgresStore.GetUserPreferences
    simp only [hread, Bool.false_eq_true, if_false, hprefs, hrow]
    exact hcat

/-- Witness of C17: user "u" of the example store, who has a live cache entry, updates
the categories to sports. -/
theorem C17_update_invalidates_cache_witness :
    (RankingService.UpdateUserPreferences exEnv exPreferenceState
        (exPreference ["sports"])).1 = .ok ()
      ∧ (GetTopVideosPerUser.resolvePreferences exEnv
          (RankingService.UpdateUserPreferences exEnv exPreferenceState
            (exPreference ["sports"])).2 "u").1.Categories = ["sports"] :=
  let h := (C17_update_invalidates_cache exEnv exPreferenceState (exPreference ["sports"])).2 rfl
  ⟨h.1, (h.2.2 rfl).2 exEnv rfl⟩

/-! ## Repeated and unknown items (C18, C19) -/

/-- Counterexample to C18 as stated: on the item whose score is 2 ^ 53 the view event is
applied successfully twice, and the float64 score after the two additions of 1 is
still 2 ^ 53, not 2 ^ 53 + 2 × 1; and the like event is applied successfully twice, and
the float64 score after the two additions of 5 is 2 ^ 53 + 8, not 2 ^ 53 + 2 × 5. -/
theorem C18_float64_redelivery_is_not_double :
    selectVideo exHugeState.videos 7 = some exHugeVideo
      ∧ (∀ r ∈ (ConsumeVideoEvents exHugeState [(exEnv, exView), (exEnv, exView)]).1,
          r = .ok ())
      ∧ accumulateF64 (some exHugeVideo.Score) [exView, exView] = some 9007199254740992
      ∧ (9007199254740992 : ℚ) ≠ exHugeVideo.Score + 2 * specWeight exView
      ∧ (∀ r ∈ (ConsumeVideoEvents exHugeState [(exEnv, exLike), (exEnv, exLike)]).1,
          r = .ok ())
      ∧ accumulateF64 (some exHugeVideo.Score) [exLike, exLike] = some 9007199254741000
      ∧ (9007199254741000 : ℚ) ≠ exHugeVideo.Score + 2 * specWeight exLike := by
  refine ⟨rfl, ?_, accumulateF64_two_views, ?_, ?_, accumulateF64_two_likes, ?_⟩
  · intro r hr
    simp only [ConsumeVideoEvents, List.mem_cons, List.mem_singleton, List.not_mem_nil,
      or_false] at hr
    rcases hr with h | h <;> rw [h] <;> rfl
  · simp [exHugeVideo, specWeight, exView]
  · intro r hr
    simp only [ConsumeVideoEvents, List.mem_cons, List.mem_singleton, List.not_mem_nil,
      or_false] at hr
    rcases hr with h | h <;> rw [h] <;> rfl
  · simp [exHugeVideo, specWeight, exLike]
    norm_num

/-- C18 (amended): `ProcessVideoEvent` is not idempotent: for every item and every event
applied successfully twice in succession, whose value, when the action is watch_time,
is below 2 ^ 63 in magnitude, and with every counter total within the 64-bit integers, every
counter ends at its initial value plus twice the increment of the event (1 for the
counter of the action, the value truncated toward zero for watch_time); and for a whole
score and a whole weight of the event (view 1, like 5, comment 3, share 4, watch_time
value × 0.05), when the magnitude of the score plus twice that of the weight is at most
2 ^ 53, the score ends at the initial score plus twice the weight of the event, which
the float64 operations of the code give without rounding. -/
theorem C18_redelivery_doubles (env1 env2 : Env) (s : State) (event : VideoEvent) (v : Video)
    (hv : selectVideo s.videos event.VideoID = some v)
    (hok : ∀ r ∈ (ConsumeVideoEvents s [(env1, event), (env2, event)]).1, r = .ok ())
    (hrange : ∀ x, event.Action = "watch_time" → event.Value = .float64 x →
      |x| < 9223372036854775808)
    (hfit : ∀ total ∈ [v.Views + 2 * actionIncrement "view" event,
        v.Likes + 2 * actionIncrement "like" event,
        v.Comments + 2 * actionIncrement "comment" event,
        v.Shares + 2 * actionIncrement "share" event,
        v.WatchTime + 2 * specTruncatedWatchValue event],
      minInt64 ≤ total ∧ total ≤ maxInt64) :
    ∃ v2, selectVideo (ConsumeVideoEvents s [(env1, event), (env2, event)]).2.videos
        event.VideoID = some v2
      ∧ v2.Views = v.Views + 2 * (if event.Action = "view" then 1 else 0)
      ∧ v2.Likes = v.Likes + 2 * (if event.Action = "like" then 1 else 0)
      ∧ v2.Comments = v.Comments + 2 * (if event.Action = "comment" then 1 else 0)
      ∧ v2.Shares = v.Shares + 2 * (if event.Action = "share" then 1 else 0)
      ∧ v2.WatchTime = v.WatchTime + 2 * specTruncatedWatchValue event
      ∧ (∀ n : Int, v.Score = (n : ℚ) → (∃ w : Int, specWeight event = (w : ℚ)) →
          |v.Score| + 2 * |specWeight event| ≤ 9007199254740992 →
          v2.Score = v.Score + 2 * specWeight event
            ∧ accumulateF64 (some v.Score) [event, event] = some v2.Score) := by
  obtain ⟨v2, h0, hs, h1, h2, h3, h4, h5⟩ :=
    ConsumeVideoEvents_effect event.VideoID [(env1, event), (env2, event)] s v hv
      (by intro p hp
          simp only [List.mem_cons, List.mem_singleton, List.not_mem_nil, or_false] at hp
          rcases hp with h | h <;> rw [h])
      hok
  have hc : ∀ action, countAction action [(env1, event), (env2, event)]
      = 2 * actionIncrement action event := by
    intro action
    rw [countAction_cons, countAction_cons]
    unfold countAction
    simp only [List.filter_nil, List.length_nil, Nat.cast_zero, add_zero]
    ring
  have hsum : ([(env1, event), (env2, event)].map (fun p => watchIncrement p.2)).sum
      = 2 * specTruncatedWatchValue event := by
    simp only [List.map_cons, List.map_nil, List.sum_cons, List.sum_nil,
      watchIncrement_of_range event hrange]
    ring
  have hscore : v2.Score = v.Score + 2 * specWeight event := by
    rw [hs]
    simp only [List.map_cons, List.map_nil, List.sum_cons, List.sum_nil]
    ring
  refine ⟨v2, h0, ?_, ?_, ?_, ?_, ?_, ?_⟩
  · rw [h1, hc]; exact counter_of_range _ _ (hfit _ (by simp))
  · rw [h2, hc]; exact counter_of_range _ _ (hfit _ (by simp))
  · rw [h3, hc]; exact counter_of_range _ _ (hfit _ (by simp))
  · rw [h4, hc]; exact counter_of_range _ _ (hfit _ (by simp))
  · rw [h5, hsum]
    split_ifs with hw
    · have hz := watchIncrement_sum_zero _ hw
      rw [hsum] at hz
      rw [hz, add_zero]
    · exact wrapInt64_of_range (hfit _ (by simp)).1 (hfit _ (by simp)).2
  · intro n hn hint hbound
    refine ⟨hscore, ?_⟩
    have hexact := accumulateF64_exact [event, event] n
      (by intro e he
          simp only [List.mem_cons, List.mem_singleton, List.not_mem_nil, or_false] at he
          rcases he with h | h <;> rw [h] <;> exact hint)
      (by simp only [List.map_cons, List.map_nil, List.sum_cons, List.sum_nil]
          rw [← hn]
          linarith)
    rw [hn, hexact, hscore, hn]
    simp only [List.map_cons, List.map_nil, List.sum_cons, List.sum_nil]
    congr 1
    ring

/-- Witness of C18 (amended): the like event applied twice to the example item, whose
score is 10: it ends with 2 likes and the score 20. -/
theorem C18_redelivery_doubles_witness :
    ∃ v2, selectVideo (ConsumeVideoEvents exState [(exEnv, exLike), (exEnv, exLike)]).2.videos
        7 = some v2
      ∧ v2.Views = 0 ∧ v2.Likes = 2 ∧ v2.Comments = 0 ∧ v2.Shares = 0 ∧ v2.WatchTime = 0
      ∧ v2.Score = 20
      ∧ accumulateF64 (some 10) [exLike, exLike] = some 20 := by
  obtain ⟨v2, h0, h1, h2, h3, h4, h5, h6⟩ :=
    C18_redelivery_doubles exEnv exEnv exState exLike exVideo rfl
      (by intro r hr
          simp only [ConsumeVideoEvents, List.mem_cons, List.mem_singleton, List.not_mem_nil,
            or_false] at hr
          rcases hr with h | h <;> rw [h] <;> rfl)
      (by intro x _ hx
          exact absurd hx (by simp [exLike]))
      (by intro total ht
          simp [actionIncrement, specTruncatedWatchValue, exLike, exVideo] at ht
          unfold minInt64 maxInt64
          omega)
  obtain ⟨h7, h8⟩ := h6 10 (by simp [exVideo]) ⟨5, by simp [specWeight, exLike]⟩
    (by simp [exVideo, specWeight, exLike]; norm_num)
  refine ⟨v2, h0, ?_, ?_, ?_, ?_, ?_, ?_, ?_⟩
  · rw [h1]; simp [exLike, exVideo]
  · rw [h2]; simp [exLike, exVideo]
  · rw [h3]; simp [exLike, exVideo]
  · rw [h4]; simp [exLike, exVideo]
  · rw [h5]; simp [exLike, exVideo, specTruncatedWatchValue]
  · rw [h7]; simp [exLike, exVideo, specWeight]; norm_num
  · have h9 : v2.Score = 20 := by
      rw [h7]; simp [exLike, exVideo, specWeight]; norm_num
    rw [h9] at h8
    simpa [exVideo] using h8

/-- C19: for every event whose item id has no row in the table of videos,
`ProcessVideoEvent` returns an error and leaves every store (the video rows, the
leaderboard and the interaction records) unchanged; when the read itself does not fail
the error is the one of the missing video. -/
theorem C19_unknown_item_rejected (env : Env) (s : State) (event : VideoEvent)
    (habsent : selectVideo s.videos event.VideoID = none) :
    (∃ e, (ProcessVideoEvent env s event).1 = .error e)
      ∧ (ProcessVideoEvent env s event).2 = s
      ∧ (env.getVideoErr = false → (ProcessVideoEvent env s event).1 = .error .videoNotFound) := by
  unfold ProcessVideoEvent RankingService.GetVideo PostgresStore.GetVideo
  cases hg : env.getVideoErr with
  | true => simp
  | false => simp [habsent]

/-- Witness of C19: an event on item 8, which the example store does not hold. -/
theorem C19_unknown_item_witness :
    (∃ e, (ProcessVideoEvent exEnv exState { exLike with VideoID := 8 }).1 = .error e)
      ∧ (ProcessVideoEvent exEnv exState { exLike with VideoID := 8 }).2 = exState
      ∧ (exEnv.getVideoErr = false →
          (ProcessVideoEvent exEnv exState { exLike with VideoID := 8 }).1
            = .error .videoNotFound) :=
  C19_unknown_item_rejected exEnv exState { exLike with VideoID := 8 } rfl

/-! ## Update of title and data, and the shape of the personalized list (C21, C22) -/

/-- C21 (the code at the failing input): on the store in which item 7 has score 10 and
3 views and is ranked at 10, the valid request to change the title and the data of item
7 is answered with status 200 and leaves the row with score 0 and every counter 0, and
the leaderboard score of the item at 0. -/
theorem C21_update_resets_score_and_counters :
    (VideoHandler.UpdateVideo exEnv exRankedState (some 7) { Title := "t2", Data := "d2" }).1
        = 200
      ∧ selectVideo exRankedState.videos 7 = some { exVideo with Views := 3 }
      ∧ zscore exRankedState.video_ranking 7 = some 10
      ∧ selectVideo (VideoHandler.UpdateVideo exEnv exRankedState (some 7)
          { Title := "t2", Data := "d2" }).2.videos 7
          = some { ID := 7, Title := "t2", Data := "d2", Score := 0, Views := 0, Likes := 0,
                   Comments := 0, Shares := 0, WatchTime := 0, CreatedAt := 0,
                   UpdatedAt := 100 }
      ∧ zscore (VideoHandler.UpdateVideo exEnv exRankedState (some 7)
          { Title := "t2", Data := "d2" }).2.video_ranking 7 = some 0 := by
  have hvalid : UpdateVideoRequest.valid { Title := "t2", Data := "d2" } = true := by decide
  refine ⟨rfl, rfl, rfl, ?_, ?_⟩
  · simp [VideoHandler.UpdateVideo, hvalid, RankingService.UpdateVideo,
      PostgresStore.UpdateVideo, RankingService.updateVideoInRedis,
      RedisStore.UpdateVideoScore, exEnv, exRankedState, exVideo, selectVideo]
  · simp [VideoHandler.UpdateVideo, hvalid, RankingService.UpdateVideo,
      PostgresStore.UpdateVideo, RankingService.updateVideoInRedis,
      RedisStore.UpdateVideoScore, exEnv, exRankedState, exVideo, zscore, zadd]

/-- C22: for every candidate list, interaction list and preference, the list returned
by `personalizeVideoRanking` has the length of the candidate list, its item ids are a
permutation of the candidate ids, and with the scores erased it is a permutation of the
candidate list with the scores erased: no item is dropped or duplicated and every
field other than the score is unchanged. -/
theorem C22_result_is_permutation_of_candidates (now : Time) (videos : List Video)
    (userInteractions : List UserVideoInteraction) (userPreferences : UserPreference) :
    (RankingService.personalizeVideoRanking now videos userInteractions
        userPreferences).length = videos.length
      ∧ ((RankingService.personalizeVideoRanking now videos userInteractions
          userPreferences).map (fun v => v.ID)).Perm (videos.map (fun v => v.ID))
      ∧ ((RankingService.personalizeVideoRanking now videos userInteractions
          userPreferences).map (fun v => { v with Score := 0 })).Perm
          (videos.map (fun v => { v with Score := 0 })) := by
  have hperm : (RankingService.personalizeVideoRanking now videos userInteractions
      userPreferences).Perm
      (videos.map (personalizeVideo now userInteractions
        (RankingService.getVideoCategoryMap videos) userPreferences)) := by
    unfold RankingService.personalizeVideoRanking
    exact sortSlice_perm _ _
  have herase : ∀ v : Video,
      ({ personalizeVideo now userInteractions (RankingService.getVideoCategoryMap videos)
          userPreferences v with Score := 0 } : Video) = { v with Score := 0 } := by
    intro v
    rw [personalizeVideo_frame]
  refine ⟨?_, ?_, ?_⟩
  · rw [hperm.length_eq, List.length_map]
  · refine (hperm.map _).trans (List.Perm.of_eq ?_)
    rw [List.map_map]
    refine List.map_congr_left ?_
    intro v _
    have h := congrArg Video.ID (herase v)
    exact h
  · refine (hperm.map _).trans (List.Perm.of_eq ?_)
    rw [List.map_map]
    refine List.map_congr_left ?_
    intro v _
    exact herase v

end RealTimeRanking
